import Mathlib

/-
Verification of the incremental diff-and-resync engine of the
milvus-swagger repository (`utils/swagger.py`, `utils/milvus_db.py`).

The embedding models JSON documents (Python dicts parsed from JSON) as a
tree type `JValue`; a Python dict is represented by its association list
of fields in insertion order, with pairwise-distinct keys (a Python dict
can never hold a key twice).  Dict equality on such canonical
representatives coincides with Lean equality of the association lists.
The filesystem is modelled as an association list from path strings to
the (parsed) JSON documents stored there; `json.dump`/`json.load`
round-trip a document unchanged in this model.
-/

/-- JSON values: Python data produced by `json.load`.  Numbers are
restricted to integers; no claim involves numeric fields. -/
inductive JValue where
  | null : JValue
  | bool (b : Bool) : JValue
  | num (n : Int) : JValue
  | str (s : String) : JValue
  | arr (elems : List JValue) : JValue
  | obj (fields : List (String × JValue)) : JValue

mutual

/-- Decidable equality of JSON values (Python `==` on the canonical
dict representation). -/
def JValue.decEq : (a b : JValue) → Decidable (a = b)
  | .null, .null => .isTrue rfl
  | .bool x, .bool y =>
      if h : x = y then .isTrue (by rw [h]) else .isFalse (by simp [h])
  | .num x, .num y =>
      if h : x = y then .isTrue (by rw [h]) else .isFalse (by simp [h])
  | .str x, .str y =>
      if h : x = y then .isTrue (by rw [h]) else .isFalse (by simp [h])
  | .arr xs, .arr ys =>
      match JValue.decEqList xs ys with
      | .isTrue h => .isTrue (by rw [h])
      | .isFalse h => .isFalse (by simp [h])
  | .obj xs, .obj ys =>
      match JValue.decEqFields xs ys with
      | .isTrue h => .isTrue (by rw [h])
      | .isFalse h => .isFalse (by simp [h])
  | .null, .bool _ | .null, .num _ | .null, .str _ | .null, .arr _ | .null, .obj _
  | .bool _, .null | .bool _, .num _ | .bool _, .str _ | .bool _, .arr _ | .bool _, .obj _
  | .num _, .null | .num _, .bool _ | .num _, .str _ | .num _, .arr _ | .num _, .obj _
  | .str _, .null | .str _, .bool _ | .str _, .num _ | .str _, .arr _ | .str _, .obj _
  | .arr _, .null | .arr _, .bool _ | .arr _, .num _ | .arr _, .str _ | .arr _, .obj _
  | .obj _, .null | .obj _, .bool _ | .obj _, .num _ | .obj _, .str _ | .obj _, .arr _ =>
      .isFalse (fun h => JValue.noConfusion h)

/-- Decidable equality of JSON arrays. -/
def JValue.decEqList : (xs ys : List JValue) → Decidable (xs = ys)
  | [], [] => .isTrue rfl
  | [], _ :: _ => .isFalse (fun h => List.noConfusion h)
  | _ :: _, [] => .isFalse (fun h => List.noConfusion h)
  | x :: xs, y :: ys =>
      match JValue.decEq x y, JValue.decEqList xs ys with
      | .isTrue h1, .isTrue h2 => .isTrue (by rw [h1, h2])
      | .isFalse h1, _ => .isFalse (by simp [h1])
      | _, .isFalse h2 => .isFalse (by simp [h2])

/-- Decidable equality of JSON object field lists. -/
def JValue.decEqFields :
    (xs ys : List (String × JValue)) → Decidable (xs = ys)
  | [], [] => .isTrue rfl
  | [], _ :: _ => .isFalse (fun h => List.noConfusion h)
  | _ :: _, [] => .isFalse (fun h => List.noConfusion h)
  | (k, v) :: xs, (k', v') :: ys =>
      if hk : k = k' then
        match JValue.decEq v v', JValue.decEqFields xs ys with
        | .isTrue h1, .isTrue h2 => .isTrue (by rw [hk, h1, h2])
        | .isFalse h1, _ => .isFalse (by simp [h1])
        | _, .isFalse h2 => .isFalse (by simp [h2])
      else .isFalse (by simp [hk])

end

instance : DecidableEq JValue := JValue.decEq

deriving instance DecidableEq for Except

/-- Python truthiness of a JSON value (`if operationID:`). -/
def JValue.truthy : JValue → Bool
  | .null => false
  | .bool b => b
  | .num n => n != 0
  | .str s => s ≠ ""
  | .arr elems => !elems.isEmpty
  | .obj fields => !fields.isEmpty

/-- Python dict lookup (`d.get(k)` / `d[k]` / `k in d`) on the
association-list representation. -/
def dictGet : List (String × JValue) → String → Option JValue
  | [], _ => none
  | (k', v) :: rest, k => if k' = k then some v else dictGet rest k

/-- Python `k in d`. -/
def dictMem (l : List (String × JValue)) (k : String) : Bool :=
  (dictGet l k).isSome

/-- Python dict assignment `d[k] = v`: replaces the value in place when
the key is present, appends the new key otherwise (insertion order). -/
def dictSet : List (String × JValue) → String → JValue → List (String × JValue)
  | [], k, v => [(k, v)]
  | (k', v') :: rest, k, v =>
      if k' = k then (k, v) :: rest else (k', v') :: dictSet rest k v

/-- Removal of a key (used to model `os.rename`'s removal of the source
path). -/
def dictErase : List (String × JValue) → String → List (String × JValue)
  | [], _ => []
  | (k', v') :: rest, k =>
      if k' = k then dictErase rest k else (k', v') :: dictErase rest k

/-- Python dict union `a | b` (the right operand wins; key positions of
`a` are kept, fresh keys of `b` are appended in order). -/
def dictUnion (a b : List (String × JValue)) : List (String × JValue) :=
  b.foldl (fun acc kv => dictSet acc kv.1 kv.2) a

/-- Errors raised by the Python code: `ValueError` (explicit raises),
`KeyError` (`d[k]` with `k` absent), `TypeError` standing for the
attribute/type errors raised when a dict operation is applied to a
non-dict, and the exception raised by a failing vector-store write. -/
inductive PyError where
  | valueError (msg : String) : PyError
  | keyError (key : String) : PyError
  | typeError : PyError
  | storeError : PyError
deriving DecidableEq

/-- A value used where Python requires a dict (`.items()`, `.get`,
`.copy()`, `k in d`): non-dicts raise. -/
def asObj : JValue → Except PyError (List (String × JValue))
  | .obj fields => .ok fields
  | _ => .error .typeError

/-- A value used where Python requires a string (`.encode`,
`markdownify`): non-strings raise. -/
def asStr : JValue → Except PyError String
  | .str s => .ok s
  | _ => .error .typeError

/-- Python `d[k]`: `KeyError` when the key is absent. -/
def getItem (o : List (String × JValue)) (k : String) : Except PyError JValue :=
  match dictGet o k with
  | some v => .ok v
  | none => .error (.keyError k)

/- ---------------------------------------------------------------------
Operation Differ: `get_updated_operationIDs_from_cache`
(src/milvus_swagger/utils/swagger.py lines 130-200).
The filesystem argument holds the parsed content of each existing file.
--------------------------------------------------------------------- -/

/-- Lines 154-156 / 164-165:
`operationID = properties.get("operationId"); if operationID:
updated_operationIDs.append(operationID)` (no duplicate check). -/
def appendId (acc : List JValue) (opid : Option JValue) : List JValue :=
  match opid with
  | some v => if v.truthy then acc ++ [v] else acc
  | none => acc

/-- Lines 170-171 / 181-182 / 189-190 / 194-195:
`if operationID and operationID not in updated_operationIDs:
updated_operationIDs.append(operationID)`. -/
def appendIdNew (acc : List JValue) (opid : Option JValue) : List JValue :=
  match opid with
  | some v => if v.truthy = true ∧ v ∉ acc then acc ++ [v] else acc
  | none => acc

/-- Lines 153-156: path absent from the cached spec, every method of the
incoming path is appended (without a duplicate check). -/
def newPathLoop : List (String × JValue) → List JValue → Except PyError (List JValue)
  | [], acc => .ok acc
  | (_method, properties) :: rest, acc =>
      match asObj properties with
      | .error e => .error e
      | .ok props => newPathLoop rest (appendId acc (dictGet props "operationId"))

/-- Lines 160-171: path present in the cached spec; `cmsV` is the cached
`paths[path]` value (its dict shape is demanded inside the loop, as in
the source where `method not in cached_spec["paths"][path]` is evaluated
per method). -/
def existingPathLoop (cmsV : JValue) :
    List (String × JValue) → List JValue → Except PyError (List JValue)
  | [], acc => .ok acc
  | (method, properties) :: rest, acc =>
      match asObj properties with
      | .error e => .error e
      | .ok props =>
        let opid := dictGet props "operationId"
        match asObj cmsV with
        | .error e => .error e
        | .ok cms =>
          match dictGet cms method with
          | none => existingPathLoop cmsV rest (appendId acc opid)
          | some cprops =>
              if properties ≠ cprops then
                existingPathLoop cmsV rest (appendIdNew acc opid)
              else
                existingPathLoop cmsV rest acc

/-- Lines 149-171: the incoming-driven pass.  `cached_spec["paths"]` is
re-evaluated inside the loop (line 152), exactly as in the source — so a
cached document without a `"paths"` key only raises once the loop body
runs. -/
def incomingPass (cached_spec : JValue) :
    List (String × JValue) → List JValue → Except PyError (List JValue)
  | [], acc => .ok acc
  | (path, methodsV) :: rest, acc =>
      match asObj cached_spec with
      | .error e => .error e
      | .ok cf =>
        match getItem cf "paths" with
        | .error e => .error e
        | .ok cpv =>
          match asObj cpv with
          | .error e => .error e
          | .ok cps =>
            match asObj methodsV with
            | .error e => .error e
            | .ok methods =>
              match dictGet cps path with
              | none =>
                  match newPathLoop methods acc with
                  | .error e => .error e
                  | .ok acc' => incomingPass cached_spec rest acc'
              | some cmsV =>
                  match existingPathLoop cmsV methods acc with
                  | .error e => .error e
                  | .ok acc' => incomingPass cached_spec rest acc'

/-- Lines 178-182: path removed altogether; appends use the duplicate
check of line 181. -/
def removedAllLoop : List (String × JValue) → List JValue → Except PyError (List JValue)
  | [], acc => .ok acc
  | (_method, properties) :: rest, acc =>
      match asObj properties with
      | .error e => .error e
      | .ok props => removedAllLoop rest (appendIdNew acc (dictGet props "operationId"))

/-- Lines 185-195: path still present in the incoming spec; `imsV` is
the incoming `paths[path]` value. -/
def removedExistingLoop (imsV : JValue) :
    List (String × JValue) → List JValue → Except PyError (List JValue)
  | [], acc => .ok acc
  | (method, properties) :: rest, acc =>
      match asObj properties with
      | .error e => .error e
      | .ok props =>
        let opid := dictGet props "operationId"
        match asObj imsV with
        | .error e => .error e
        | .ok ims =>
          match dictGet ims method with
          | none => removedExistingLoop imsV rest (appendIdNew acc opid)
          | some iprops =>
              if properties ≠ iprops then
                removedExistingLoop imsV rest (appendIdNew acc opid)
              else
                removedExistingLoop imsV rest acc

/-- Lines 176-196: the cached-driven (removal) pass over
`cached_spec["paths"].items()`; `spaths` is the incoming `paths` dict. -/
def removedPass (spaths : List (String × JValue)) :
    List (String × JValue) → List JValue → Except PyError (List JValue)
  | [], acc => .ok acc
  | (path, methodsV) :: rest, acc =>
      match asObj methodsV with
      | .error e => .error e
      | .ok methods =>
        match dictGet spaths path with
        | none =>
            match removedAllLoop methods acc with
            | .error e => .error e
            | .ok acc' => removedPass spaths rest acc'
        | some imsV =>
            match removedExistingLoop imsV methods acc with
            | .error e => .error e
            | .ok acc' => removedPass spaths rest acc'

/-- Model of `get_updated_operationIDs_from_cache(swagger_spec_dict,
cached_spec_path)` (lines 130-200).  `files` is the filesystem; the
function raises `ValueError` when the cached path does not exist (lines
142-143), then runs the incoming-driven pass (149-171) and the
cached-driven removal pass (176-196).  `cached_spec["paths"]` for the
second pass is evaluated at line 176, after the first pass finished. -/
def get_updated_operationIDs_from_cache (files : List (String × JValue))
    (swagger_spec_dict : JValue) (cached_spec_path : String) :
    Except PyError (List JValue) :=
  match dictGet files cached_spec_path with
  | none => .error (.valueError ("Cached spec file not found at " ++ cached_spec_path))
  | some cached_spec =>
    match asObj swagger_spec_dict with
    | .error e => .error e
    | .ok sf =>
      match getItem sf "paths" with
      | .error e => .error e
      | .ok spv =>
        match asObj spv with
        | .error e => .error e
        | .ok spaths =>
          match incomingPass cached_spec spaths [] with
          | .error e => .error e
          | .ok acc1 =>
            match asObj cached_spec with
            | .error e => .error e
            | .ok cf =>
              match getItem cf "paths" with
              | .error e => .error e
              | .ok cpv =>
                match asObj cpv with
                | .error e => .error e
                | .ok cpaths => removedPass spaths cpaths acc1

/- ---------------------------------------------------------------------
Spec Cache: `cache_swagger` (lines 88-107) and `check_against_cache`
(lines 110-127).
--------------------------------------------------------------------- -/

/-- Model of `os.path.join(dir, file)` (POSIX). -/
def osPathJoin (dir file : String) : String :=
  if file.startsWith "/" then file
  else if dir = "" then file
  else if dir.endsWith "/" then dir ++ file
  else dir ++ "/" ++ file

/-- Model of `cache_swagger(swagger_spec_dict, cache_dir)`: dumps the spec to
`<cache_dir>/swagger_cache.json` and returns the new filesystem and the
cached path.  (Directory creation has no observable effect in the
path-to-document filesystem model.) -/
def cache_swagger (files : List (String × JValue)) (swagger_spec_dict : JValue)
    (cache_dir : String) : List (String × JValue) × String :=
  let cache_file := osPathJoin cache_dir "swagger_cache.json"
  (dictSet files cache_file swagger_spec_dict, cache_file)

/-- Model of `check_against_cache(swagger_spec_dict, cached_spec_path)`: raises
`ValueError` when the path does not exist (lines 121-122), otherwise
compares the parsed cached document with the given one (line 127). -/
def check_against_cache (files : List (String × JValue)) (swagger_spec_dict : JValue)
    (cached_spec_path : String) : Except PyError Bool :=
  match dictGet files cached_spec_path with
  | none => .error (.valueError ("Cached spec file not found at " ++ cached_spec_path))
  | some cached_spec => .ok (decide (swagger_spec_dict = cached_spec))

/- ---------------------------------------------------------------------
Ingestion Driver: `ingest_swagger`
(src/milvus_swagger/utils/milvus_db.py lines 54-209).

External collaborators are modelled as an environment of uninterpreted
functions: the optional summarization chain, `markdownify`, the MD5-based
deterministic UUID of an operationId, Python `str()`/`repr()` of non-string
values, `datetime.now()` (indexed by the number of documents stored so
far), the archive timestamp, and whether `add_documents` succeeds for a
given document.  The trace records the observable effects of the run
(skips, store writes, checkpoint flushes, failures, the archive rename);
it does not influence control flow.
--------------------------------------------------------------------- -/

/-- A langchain `Document` built for one endpoint (id, page_content,
metadata). -/
structure Doc where
  id : String
  page_content : String
  metadata : List (String × JValue)
deriving DecidableEq

/-- The external collaborators of `ingest_swagger`, as uninterpreted
functions. -/
structure IngestEnv where
  /-- Model of `endpoint_summary_chain`: raw description text to summary text,
  absent when no chain is supplied. -/
  summarize? : Option (String → String)
  /-- Model of `markdownify`. -/
  md : String → String
  /-- hex digest of `hashlib.md5(operationId.encode("utf-8"))`, i.e. the
  deterministic endpoint UUID as a string. -/
  md5hex : String → String
  /-- Python `str()`/`repr()` of a non-string JSON value. -/
  pyRepr : JValue → String
  /-- Value of `str(datetime.datetime.now())` at the creation of the n-th
  checkpoint entry of this run. -/
  now : Nat → String
  /-- Value of `datetime.datetime.now().strftime("%Y%m%d_%H%M%S")` used for the
  archived log name. -/
  archiveTs : String
  /-- whether `milvus_vectorstore.add_documents` succeeds on a
  document. -/
  addOk : Doc → Bool

/-- Python `str()` used in an f-string: strings unchanged, other values
via their repr. -/
def pyStr (rep : JValue → String) : JValue → String
  | .str s => s
  | v => rep v

/-- Lines 136-138: `if field in props and isinstance(props[field], list):
props[field] = str(props[field])` for one field. -/
def convertListField (rep : JValue → String) (props : List (String × JValue))
    (field : String) : List (String × JValue) :=
  match dictGet props field with
  | some (.arr elems) => dictSet props field (.str (rep (.arr elems)))
  | _ => props

/-- Lines 136-138 for the three fields `tags`, `parameters`,
`security`. -/
def convertListFields (rep : JValue → String) (props : List (String × JValue)) :
    List (String × JValue) :=
  (["tags", "parameters", "security"]).foldl (convertListField rep) props

/-- Lines 143-153: the endpoint description f-string (page content);
whitespace mirrors the literal layout of the triple-quoted string. -/
def endpointDescriptionString (method path opid summarized tags params
    responses : String) : String :=
  "\n                    " ++ method.toUpper ++ " " ++ path ++ " - " ++ opid ++
  "\n\n                    description: " ++ summarized ++
  "\n\n                    tags: " ++ tags ++
  "\n\n                        parameters: " ++ params ++
  "\n\n                        responses: " ++ responses ++
  "\n                    "

/-- Lines 115-162 up to the store write: build the `Document` for one
endpoint and attempt to store it.  Errors are those the `try` block can
raise: `KeyError` on the required fields `description` (121/124),
`operationId` (132), `tags`/`parameters`/`responses` (148-152),
`TypeError` for non-dict operations or non-string description /
operationId, and the store-write failure of `add_documents` (162). -/
def processOne (env : IngestEnv) (method path : String) (properties : JValue) :
    Except PyError Doc :=
  match asObj properties with
  | .error e => .error e
  | .ok props0 =>
    match getItem props0 "description" with
    | .error e => .error e
    | .ok descV =>
      match asStr descV with
      | .error e => .error e
      | .ok desc =>
        let summarized : String :=
          match env.summarize? with
          | some chain => chain desc
          | none => desc
        let props1 := dictSet props0 "description" (.str (env.md desc))
        match getItem props1 "operationId" with
        | .error e => .error e
        | .ok opidV =>
          match asStr opidV with
          | .error e => .error e
          | .ok opid =>
            let endpoint_uuid := env.md5hex opid
            let props2 := convertListFields env.pyRepr props1
            let endpoint_metadata :=
              dictUnion [("method", .str method.toUpper), ("path", .str path)] props2
            match getItem props2 "tags" with
            | .error e => .error e
            | .ok tagsV =>
              match getItem props2 "parameters" with
              | .error e => .error e
              | .ok paramsV =>
                match getItem props2 "responses" with
                | .error e => .error e
                | .ok responsesV =>
                  let doc : Doc :=
                    { id := endpoint_uuid
                      page_content := endpointDescriptionString method path opid
                        summarized (pyStr env.pyRepr tagsV)
                        (pyStr env.pyRepr paramsV) (pyStr env.pyRepr responsesV)
                      metadata := endpoint_metadata }
                  if env.addOk doc then .ok doc else .error .storeError

/-- Observable events of an ingestion run (instrumentation of the model;
`flushed` records a `json.dump` of the full current ledger to the
checkpoint file). -/
inductive Event where
  | skipped (key : String) : Event
  | stored (key : String) (id : String) : Event
  | flushed (path : String) (ledger : List (String × JValue)) : Event
  | failed (key : String) : Event
  | renamed (src : String) (dst : String) : Event
deriving DecidableEq

/-- Mutable state of an ingestion run: the filesystem, the
`processed_endpoints` ledger dict, the accumulated `documents` list and
the event trace. -/
structure IngestState where
  files : List (String × JValue)
  processed : List (String × JValue)
  documents : List Doc
  trace : List Event

/-- Lines 105-185: handling of one `(method, path)` endpoint: the resume
skip check (111-112), the `try` body (115-176) and the `except` handler
(178-183) that dumps the ledger before re-raising. -/
def stepOp (env : IngestEnv) (checkpoint_file : String) (resume : Bool)
    (path : String) (s : IngestState) (method : String) (properties : JValue) :
    Except (PyError × IngestState) IngestState :=
  let endpoint_key := method ++ ":" ++ path
  if resume && dictMem s.processed endpoint_key then
    .ok { s with trace := s.trace ++ [.skipped endpoint_key] }
  else
    match processOne env method path properties with
    | .ok doc =>
        let entry : JValue :=
          .obj [("uuid", .str doc.id), ("processed_at", .str (env.now s.documents.length))]
        let processed' := dictSet s.processed endpoint_key entry
        let doFlush := processed'.length % 5 == 0
        .ok { files := if doFlush then dictSet s.files checkpoint_file (.obj processed')
                       else s.files
              processed := processed'
              documents := s.documents ++ [doc]
              trace := s.trace ++ [.stored endpoint_key doc.id] ++
                (if doFlush then [.flushed checkpoint_file processed'] else []) }
    | .error e =>
        .error (e, { s with
          files := dictSet s.files checkpoint_file (.obj s.processed)
          trace := s.trace ++ [.failed endpoint_key, .flushed checkpoint_file s.processed] })

/-- Line 105: the inner `for method, properties in endpoint.items()`
loop. -/
def methodLoop (env : IngestEnv) (checkpoint_file : String) (resume : Bool)
    (path : String) :
    List (String × JValue) → IngestState → Except (PyError × IngestState) IngestState
  | [], s => .ok s
  | (method, properties) :: rest, s =>
      match stepOp env checkpoint_file resume path s method properties with
      | .error es => .error es
      | .ok s' => methodLoop env checkpoint_file resume path rest s'

/-- Line 104: the outer `for path, endpoint in swagger_spec["paths"].items()`
loop.  A non-dict `endpoint` raises at `endpoint.items()`, outside the
`try` block, so without a ledger flush. -/
def pathLoop (env : IngestEnv) (checkpoint_file : String) (resume : Bool) :
    List (String × JValue) → IngestState → Except (PyError × IngestState) IngestState
  | [], s => .ok s
  | (path, methodsV) :: rest, s =>
      match asObj methodsV with
      | .error e => .error (e, s)
      | .ok methods =>
        match methodLoop env checkpoint_file resume path methods s with
        | .error es => .error es
        | .ok s' => pathLoop env checkpoint_file resume rest s'

/-- Lines 88-96: the endpoint-counting loop that sizes the progress bar.
Its only observable effect is that it raises, before any processing, when
the spec tree is malformed. -/
def countPass (resume : Bool) (processed : List (String × JValue)) :
    List (String × JValue) → Except PyError Nat
  | [] => .ok 0
  | (path, methodsV) :: rest =>
      match asObj methodsV with
      | .error e => .error e
      | .ok methods =>
        let c := (methods.filter
          (fun mp => !(resume && dictMem processed (mp.1 ++ ":" ++ path)))).length
        match countPass resume processed rest with
        | .error e => .error e
        | .ok crest => .ok (c + crest)

/-- Lines 79-86: the checkpoint ledger loaded at the start of a resumed
run; an absent file (or `resume=False`) yields the empty ledger. -/
def loadedLedger (files : List (String × JValue)) (checkpoint_file : String)
    (resume : Bool) : List (String × JValue) :=
  if resume then
    match dictGet files checkpoint_file with
    | some (.obj l) => l
    | _ => []
  else []

/-- Model of `os.path.splitext` (POSIX): split at the last dot of the basename,
unless every character before it in the basename is a dot. -/
def splitext (p : String) : String × String :=
  let cs := p.toList
  let base := (cs.length - 1) - ((cs.reverse.indexOf '/'))
  let lastDot := (cs.length - 1) - (cs.reverse.indexOf '.')
  if '.' ∈ cs ∧ base ≤ lastDot ∧ ((cs.drop base).take (lastDot - base)).any (· ≠ '.') then
    (⟨cs.take lastDot⟩, ⟨cs.drop lastDot⟩)
  else (p, "")

/-- Lines 198-202: the timestamped historical log name
`f"{log_name}_{timestamp}{log_ext}"`. -/
def archiveName (log_file : String) (timestamp : String) : String :=
  let ne := splitext log_file
  ne.1 ++ "_" ++ timestamp ++ ne.2

/-- Result of an ingestion run: final filesystem, event trace, final
in-memory ledger, and the outcome (`documents` on success, the
propagated exception otherwise). -/
structure RunResult where
  files : List (String × JValue)
  trace : List Event
  processed : List (String × JValue)
  outcome : Except PyError (List Doc)

/-- Model of `ingest_swagger(swagger_spec, milvus_vectorstore,
endpoint_summary_chain, checkpoint_file, log_file, resume)`
(lines 54-209): load the ledger if resuming (79-86), raise on a
malformed spec tree while counting endpoints (89-96), run the main loop
(104-185), dump the final checkpoint (188-189), and on success rename
the checkpoint file to the timestamped log (195-207). -/
def ingest_swagger (env : IngestEnv) (swagger_spec : JValue)
    (files0 : List (String × JValue)) (checkpoint_file log_file : String)
    (resume : Bool) : RunResult :=
  let processed0 := loadedLedger files0 checkpoint_file resume
  match asObj swagger_spec with
  | .error e => ⟨files0, [], processed0, .error e⟩
  | .ok sf =>
    match getItem sf "paths" with
    | .error e => ⟨files0, [], processed0, .error e⟩
    | .ok spv =>
      match asObj spv with
      | .error e => ⟨files0, [], processed0, .error e⟩
      | .ok spaths =>
        match countPass resume processed0 spaths with
        | .error e => ⟨files0, [], processed0, .error e⟩
        | .ok _ =>
          match pathLoop env checkpoint_file resume spaths
              ⟨files0, processed0, [], []⟩ with
          | .error (e, s) => ⟨s.files, s.trace, s.processed, .error e⟩
          | .ok s =>
            let files1 := dictSet s.files checkpoint_file (.obj s.processed)
            let trace1 := s.trace ++ [.flushed checkpoint_file s.processed]
            let tsLog := archiveName log_file env.archiveTs
            match dictGet files1 checkpoint_file with
            | some content =>
                ⟨dictSet (dictErase files1 checkpoint_file) tsLog content,
                 trace1 ++ [.renamed checkpoint_file tsLog], s.processed,
                 .ok s.documents⟩
            | none => ⟨files1, trace1, s.processed, .ok s.documents⟩

/-- The `(method, path)` checkpoint keys `f"{method}:{path}"` of one
path's methods dict. -/
def methodKeys (path : String) (methods : List (String × JValue)) : List String :=
  methods.map (fun mp => mp.1 ++ ":" ++ path)

/-- All checkpoint keys of a spec's `paths` dict, in iteration order. -/
def allKeys : List (String × JValue) → List String
  | [] => []
  | (path, methodsV) :: rest =>
      (match methodsV with
       | .obj ms => methodKeys path ms
       | _ => []) ++ allKeys rest

/-- Keys of the store writes recorded in a trace, in order. -/
def storedKeys (t : List Event) : List String :=
  t.filterMap (fun e => match e with | .stored k _ => some k | _ => none)

/-- Keys of the resume skips recorded in a trace, in order. -/
def skippedKeys (t : List Event) : List String :=
  t.filterMap (fun e => match e with | .skipped k => some k | _ => none)

/-- Whether an event is a checkpoint flush. -/
def isFlushEvent : Event → Bool
  | .flushed _ _ => true
  | _ => false

/-- Number of checkpoint flushes in a trace. -/
def flushCount (t : List Event) : Nat :=
  (t.filter isFlushEvent).length

/-- Shape demanded by the endpoint-counting loop (lines 90-91): the spec
tree maps every path to a dict of methods. -/
def pathsShape (P : List (String × JValue)) : Bool :=
  P.all (fun pm => match pm.2 with | JValue.obj _ => true | _ => false)

/-- Every targeted operation of the paths dict `P` is processable under
`env`, except possibly those whose checkpoint key is recorded in the
ledger `L`. -/
def readyPaths (env : IngestEnv) (L : List (String × JValue))
    (P : List (String × JValue)) : Bool :=
  P.all (fun pm => match pm.2 with
    | JValue.obj ms => ms.all (fun mp =>
        dictMem L (mp.1 ++ ":" ++ pm.1) ||
        (processOne env mp.1 pm.1 mp.2).isOk)
    | _ => false)

/-- Number of periodic (every 5th cumulative entry) checkpoint flushes
performed while the ledger grows from `start` entries by `n` new
entries. -/
def periodicFlushes (start : Nat) : Nat → Nat
  | 0 => 0
  | Nat.succ k =>
      (if (start + 1) % 5 = 0 then 1 else 0) + periodicFlushes (start + 1) k

/-- The operation-object keys the driver reads unconditionally for every
targeted operation: `description` (lines 121/124), `operationId` (132),
`tags`, `parameters`, `responses` (148-152). -/
def requiredKeys : List String :=
  ["description", "operationId", "tags", "parameters", "responses"]

/-- A concrete environment used to evaluate the driver on sample
documents: no summarizer, identity markdown conversion and hash,
constant repr and timestamps, always-successful store. -/
def envDefault : IngestEnv :=
  { summarize? := none, md := fun s => s, md5hex := fun s => s,
    pyRepr := fun _ => "[...]", now := fun _ => "2025-01-01 00:00:00",
    archiveTs := "20250101_000000", addOk := fun _ => true }

/-- Variant of `envDefault` with a store that fails on one document id, to exercise
the failure path. -/
def envFailStore (badId : String) : IngestEnv :=
  { envDefault with addOk := fun d => !(d.id == badId) }

/-- A minimal well-formed operation object. -/
def sampleOp (opid : String) : JValue :=
  .obj [("description", .str "d"), ("operationId", .str opid),
        ("tags", .arr []), ("parameters", .arr []), ("responses", .obj [])]

/- ---------------------------------------------------------------------
Specification-side notions used to state the differ's properties.
--------------------------------------------------------------------- -/

/-- The operation object stored under `paths[path][method]` of a paths
dict, when the path is present with a dict of methods and the method is
present. -/
def lookupOp (P : List (String × JValue)) (path method : String) : Option JValue :=
  match dictGet P path with
  | some (.obj ms) => dictGet ms method
  | _ => none

/-- The trackable operation identifier of an operation object: its
`operationId` value when present and truthy (the differ's
`if operationID:` check), `none` otherwise. -/
def opIdOf (properties : JValue) : Option JValue :=
  match properties with
  | .obj props =>
    match dictGet props "operationId" with
    | some v => if v.truthy then some v else none
    | none => none
  | _ => none

/-- §4.2 of the specification: `v` is a changed operation identifier
between the incoming paths dict `IP` and the cached paths dict `CP` —
the identifier of an operation of `IP` whose cached counterpart is
absent or different, or of an operation of `CP` whose incoming
counterpart is absent or different (removals). -/
def DiffSpec (IP CP : List (String × JValue)) (v : JValue) : Prop :=
  (∃ p m props, lookupOp IP p m = some props ∧ opIdOf props = some v ∧
      lookupOp CP p m ≠ some props) ∨
  (∃ p m props, lookupOp CP p m = some props ∧ opIdOf props = some v ∧
      lookupOp IP p m ≠ some props)

/-- Well-formedness of a paths dict as produced by parsing a JSON
document with Python: keys are pairwise distinct at the path and method
levels (dicts cannot repeat a key) and every path maps to a dict of
methods, every method to a dict (the operation object). -/
def wfPaths (P : List (String × JValue)) : Bool :=
  decide (P.map Prod.fst).Nodup &&
  P.all (fun pm => match pm.2 with
    | .obj ms => decide (ms.map Prod.fst).Nodup &&
        ms.all (fun mp => match mp.2 with | .obj _ => true | _ => false)
    | _ => false)

/-- The value of a successful differ run (`[]` on an exception); lets
properties of the output list be stated without an existential over the
`Except`. -/
def exceptList (r : Except PyError (List JValue)) : List JValue :=
  match r with
  | .ok l => l
  | .error _ => []

/- ---------------------------------------------------------------------
Basic lemmas on the Python-dict operations.
--------------------------------------------------------------------- -/

theorem dictGet_dictSet_self (l : List (String × JValue)) (k : String) (v : JValue) :
    dictGet (dictSet l k v) k = some v := by
  induction l with
  | nil => simp [dictGet, dictSet]
  | cons hd tl ih =>
    obtain ⟨k', v'⟩ := hd
    by_cases h : k' = k
    · simp [dictSet, h, dictGet]
    · simp [dictSet, h, dictGet, ih]

theorem dictGet_dictSet_ne (l : List (String × JValue)) (k q : String) (v : JValue)
    (h : q ≠ k) : dictGet (dictSet l k v) q = dictGet l q := by
  have h' : ¬ (k = q) := fun hh => h hh.symm
  induction l with
  | nil => simp [dictGet, dictSet, h']
  | cons hd tl ih =>
    obtain ⟨k', v'⟩ := hd
    by_cases hk : k' = k
    · subst hk
      simp [dictSet, dictGet, h']
    · simp [dictSet, hk, dictGet, ih]

theorem dictMem_dictSet (l : List (String × JValue)) (k q : String) (v : JValue) :
    dictMem (dictSet l k v) q = (decide (q = k) || dictMem l q) := by
  by_cases h : q = k
  · subst h
    simp [dictMem, dictGet_dictSet_self]
  · simp [dictMem, dictGet_dictSet_ne l k q v h, h]

theorem length_dictSet_fresh (l : List (String × JValue)) (k : String) (v : JValue)
    (h : dictMem l k = false) : (dictSet l k v).length = l.length + 1 := by
  induction l with
  | nil => simp [dictSet]
  | cons hd tl ih =>
    obtain ⟨k', v'⟩ := hd
    by_cases hk : k' = k
    · subst hk
      simp [dictMem, dictGet] at h
    · simp [dictMem, dictGet, hk] at h
      have h2 : dictMem tl k = false := by simp [dictMem, h]
      simp [dictSet, hk, ih h2]

theorem dictGet_dictErase_self (l : List (String × JValue)) (k : String) :
    dictGet (dictErase l k) k = none := by
  induction l with
  | nil => simp [dictGet, dictErase]
  | cons hd tl ih =>
    obtain ⟨k', v'⟩ := hd
    by_cases h : k' = k
    · simp [dictErase, h, ih]
    · simp [dictErase, h, dictGet, ih]

theorem dictGet_dictErase_ne (l : List (String × JValue)) (k q : String)
    (h : q ≠ k) : dictGet (dictErase l k) q = dictGet l q := by
  have h' : ¬ (k = q) := fun hh => h hh.symm
  induction l with
  | nil => simp [dictErase]
  | cons hd tl ih =>
    obtain ⟨k', v'⟩ := hd
    by_cases hk : k' = k
    · subst hk
      simp [dictErase, dictGet, h', ih]
    · simp [dictErase, hk, dictGet, ih]

theorem mem_of_dictGet_eq_some (l : List (String × JValue)) (k : String)
    (v : JValue) (h : dictGet l k = some v) : (k, v) ∈ l := by
  induction l with
  | nil => simp [dictGet] at h
  | cons hd tl ih =>
    obtain ⟨k', v'⟩ := hd
    by_cases hk : k' = k
    · subst hk
      simp [dictGet] at h
      simp [h]
    · simp [dictGet, hk] at h
      exact List.mem_cons_of_mem _ (ih h)

theorem dictGet_eq_some_of_mem_nodup (l : List (String × JValue)) (k : String)
    (v : JValue) (hnd : (l.map Prod.fst).Nodup) (h : (k, v) ∈ l) :
    dictGet l k = some v := by
  induction l with
  | nil => simp at h
  | cons hd tl ih =>
    obtain ⟨k', v'⟩ := hd
    simp only [List.map_cons, List.nodup_cons] at hnd
    rcases List.mem_cons.mp h with heq | hmem
    · injection heq with hk hv
      subst hk
      subst hv
      simp [dictGet]
    · have hkne : k' ≠ k :=
        fun hkk => hnd.1 (List.mem_map.mpr ⟨(k, v), hmem, by simp [hkk]⟩)
      simp [dictGet, hkne, ih hnd.2 hmem]

/- ---------------------------------------------------------------------
Membership characterization of the differ's accumulator operations.
--------------------------------------------------------------------- -/

theorem mem_appendId (v : JValue) (acc : List JValue) (o : Option JValue) :
    v ∈ appendId acc o ↔ v ∈ acc ∨ ∃ w, o = some w ∧ w.truthy = true ∧ v = w := by
  cases o with
  | none => simp [appendId]
  | some w =>
    by_cases h : w.truthy
    · simp [appendId, h, List.mem_append]
    · simp [appendId, h]

theorem mem_appendIdNew (v : JValue) (acc : List JValue) (o : Option JValue) :
    v ∈ appendIdNew acc o ↔ v ∈ acc ∨ ∃ w, o = some w ∧ w.truthy = true ∧ v = w := by
  cases o with
  | none => simp [appendIdNew]
  | some w =>
    by_cases h : w.truthy = true ∧ w ∉ acc
    · simp [appendIdNew, if_pos h, List.mem_append, h.1, h.2]
    · simp only [appendIdNew, if_neg h, Option.some.injEq]
      constructor
      · exact Or.inl
      · rintro (hv | ⟨w', hw', ht, hv⟩)
        · exact hv
        · subst hw'
          subst hv
          rcases not_and_or.mp h with hnt | hmem
          · exact absurd ht hnt
          · exact not_not.mp hmem

theorem opIdOf_obj (pf : List (String × JValue)) (v : JValue) :
    opIdOf (.obj pf) = some v ↔
      dictGet pf "operationId" = some v ∧ v.truthy = true := by
  cases hg : dictGet pf "operationId" with
  | none => simp [opIdOf, hg]
  | some w =>
    by_cases h : w.truthy
    · simp only [opIdOf, hg, if_pos h, Option.some.injEq]
      constructor
      · rintro rfl
        exact ⟨rfl, h⟩
      · rintro ⟨rfl, _⟩
        rfl
    · simp only [opIdOf, hg, if_neg h]
      constructor
      · intro hh
        exact Option.noConfusion hh
      · rintro ⟨hw, ht⟩
        injection hw with hw'
        subst hw'
        exact absurd ht h

theorem newPathLoop_ok (methods : List (String × JValue)) (acc : List JValue)
    (h : ∀ mp ∈ methods, ∃ pf, mp.2 = JValue.obj pf) :
    ∃ out, newPathLoop methods acc = .ok out ∧
      ∀ v, (v ∈ out ↔ v ∈ acc ∨
        ∃ m props, (m, props) ∈ methods ∧ opIdOf props = some v) := by
  induction methods generalizing acc with
  | nil => exact ⟨acc, rfl, fun v => by simp⟩
  | cons hd tl ih =>
    obtain ⟨m0, props0⟩ := hd
    have hpf' : ∃ pf, props0 = JValue.obj pf := h (m0, props0) (by simp)
    obtain ⟨pf, hpf⟩ := hpf'
    subst hpf
    obtain ⟨out, hout, hchar⟩ := ih (appendId acc (dictGet pf "operationId"))
      (fun mp hmp => h mp (List.mem_cons_of_mem _ hmp))
    refine ⟨out, ?_, fun v => ?_⟩
    · simp [newPathLoop, asObj, hout]
    · rw [hchar v, mem_appendId]
      constructor
      · rintro ((hv | ⟨w, hw, ht, rfl⟩) | ⟨m, props, hmem, hop⟩)
        · exact Or.inl hv
        · exact Or.inr ⟨m0, .obj pf, by simp, (opIdOf_obj pf v).mpr ⟨hw, ht⟩⟩
        · exact Or.inr ⟨m, props, List.mem_cons_of_mem _ hmem, hop⟩
      · rintro (hv | ⟨m, props, hmem, hop⟩)
        · exact Or.inl (Or.inl hv)
        · rcases List.mem_cons.mp hmem with heq | hmem'
          · injection heq with hm hp
            subst hp
            obtain ⟨hg, ht⟩ := (opIdOf_obj pf v).mp hop
            exact Or.inl (Or.inr ⟨v, hg, ht, rfl⟩)
          · exact Or.inr ⟨m, props, hmem', hop⟩

theorem existingPathLoop_ok (cms : List (String × JValue))
    (methods : List (String × JValue)) (acc : List JValue)
    (h : ∀ mp ∈ methods, ∃ pf, mp.2 = JValue.obj pf) :
    ∃ out, existingPathLoop (.obj cms) methods acc = .ok out ∧
      ∀ v, (v ∈ out ↔ v ∈ acc ∨
        ∃ m props, (m, props) ∈ methods ∧ opIdOf props = some v ∧
          dictGet cms m ≠ some props) := by
  induction methods generalizing acc with
  | nil => exact ⟨acc, rfl, fun v => by simp⟩
  | cons hd tl ih =>
    obtain ⟨m0, props0⟩ := hd
    have hpf' : ∃ pf, props0 = JValue.obj pf := h (m0, props0) (by simp)
    obtain ⟨pf, hpf⟩ := hpf'
    subst hpf
    have htl : ∀ mp ∈ tl, ∃ pf, mp.2 = JValue.obj pf :=
      fun mp hmp => h mp (List.mem_cons_of_mem _ hmp)
    cases hcm : dictGet cms m0 with
    | none =>
      obtain ⟨out, hout, hchar⟩ := ih (appendId acc (dictGet pf "operationId")) htl
      refine ⟨out, ?_, fun v => ?_⟩
      · simp [existingPathLoop, asObj, hcm, hout]
      · rw [hchar v, mem_appendId]
        constructor
        · rintro ((hv | ⟨w, hw, ht, rfl⟩) | ⟨m, props, hmem, hop, hne⟩)
          · exact Or.inl hv
          · refine Or.inr ⟨m0, .obj pf, by simp, (opIdOf_obj pf v).mpr ⟨hw, ht⟩, ?_⟩
            rw [hcm]
            exact fun hh => Option.noConfusion hh
          · exact Or.inr ⟨m, props, List.mem_cons_of_mem _ hmem, hop, hne⟩
        · rintro (hv | ⟨m, props, hmem, hop, hne⟩)
          · exact Or.inl (Or.inl hv)
          · rcases List.mem_cons.mp hmem with heq | hmem'
            · injection heq with hm hp
              subst hp
              obtain ⟨hg, ht⟩ := (opIdOf_obj pf v).mp hop
              exact Or.inl (Or.inr ⟨v, hg, ht, rfl⟩)
            · exact Or.inr ⟨m, props, hmem', hop, hne⟩
    | some cprops =>
      by_cases hne0 : JValue.obj pf ≠ cprops
      · obtain ⟨out, hout, hchar⟩ := ih (appendIdNew acc (dictGet pf "operationId")) htl
        refine ⟨out, ?_, fun v => ?_⟩
        · simp [existingPathLoop, asObj, hcm, if_pos hne0, hout]
        · rw [hchar v, mem_appendIdNew]
          constructor
          · rintro ((hv | ⟨w, hw, ht, rfl⟩) | ⟨m, props, hmem, hop, hne⟩)
            · exact Or.inl hv
            · refine Or.inr ⟨m0, .obj pf, by simp, (opIdOf_obj pf v).mpr ⟨hw, ht⟩, ?_⟩
              rw [hcm]
              intro hh
              injection hh with hh'
              exact hne0 hh'.symm
            · exact Or.inr ⟨m, props, List.mem_cons_of_mem _ hmem, hop, hne⟩
          · rintro (hv | ⟨m, props, hmem, hop, hne⟩)
            · exact Or.inl (Or.inl hv)
            · rcases List.mem_cons.mp hmem with heq | hmem'
              · injection heq with hm hp
                subst hp
                obtain ⟨hg, ht⟩ := (opIdOf_obj pf v).mp hop
                exact Or.inl (Or.inr ⟨v, hg, ht, rfl⟩)
              · exact Or.inr ⟨m, props, hmem', hop, hne⟩
      · have heq0 : JValue.obj pf = cprops := not_not.mp hne0
        obtain ⟨out, hout, hchar⟩ := ih acc htl
        refine ⟨out, ?_, fun v => ?_⟩
        · simp [existingPathLoop, asObj, hcm, if_neg hne0, hout]
        · rw [hchar v]
          constructor
          · rintro (hv | ⟨m, props, hmem, hop, hne⟩)
            · exact Or.inl hv
            · exact Or.inr ⟨m, props, List.mem_cons_of_mem _ hmem, hop, hne⟩
          · rintro (hv | ⟨m, props, hmem, hop, hne⟩)
            · exact Or.inl hv
            · rcases List.mem_cons.mp hmem with heq | hmem'
              · injection heq with hm hp
                subst hp
                subst hm
                exact (hne (by rw [hcm, heq0])).elim
              · exact Or.inr ⟨m, props, hmem', hop, hne⟩

theorem removedAllLoop_ok (methods : List (String × JValue)) (acc : List JValue)
    (h : ∀ mp ∈ methods, ∃ pf, mp.2 = JValue.obj pf) :
    ∃ out, removedAllLoop methods acc = .ok out ∧
      ∀ v, (v ∈ out ↔ v ∈ acc ∨
        ∃ m props, (m, props) ∈ methods ∧ opIdOf props = some v) := by
  induction methods generalizing acc with
  | nil => exact ⟨acc, rfl, fun v => by simp⟩
  | cons hd tl ih =>
    obtain ⟨m0, props0⟩ := hd
    have hpf' : ∃ pf, props0 = JValue.obj pf := h (m0, props0) (by simp)
    obtain ⟨pf, hpf⟩ := hpf'
    subst hpf
    obtain ⟨out, hout, hchar⟩ := ih (appendIdNew acc (dictGet pf "operationId"))
      (fun mp hmp => h mp (List.mem_cons_of_mem _ hmp))
    refine ⟨out, ?_, fun v => ?_⟩
    · simp [removedAllLoop, asObj, hout]
    · rw [hchar v, mem_appendIdNew]
      constructor
      · rintro ((hv | ⟨w, hw, ht, rfl⟩) | ⟨m, props, hmem, hop⟩)
        · exact Or.inl hv
        · exact Or.inr ⟨m0, .obj pf, by simp, (opIdOf_obj pf v).mpr ⟨hw, ht⟩⟩
        · exact Or.inr ⟨m, props, List.mem_cons_of_mem _ hmem, hop⟩
      · rintro (hv | ⟨m, props, hmem, hop⟩)
        · exact Or.inl (Or.inl hv)
        · rcases List.mem_cons.mp hmem with heq | hmem'
          · injection heq with hm hp
            subst hp
            obtain ⟨hg, ht⟩ := (opIdOf_obj pf v).mp hop
            exact Or.inl (Or.inr ⟨v, hg, ht, rfl⟩)
          · exact Or.inr ⟨m, props, hmem', hop⟩

theorem removedExistingLoop_ok (ims : List (String × JValue))
    (methods : List (String × JValue)) (acc : List JValue)
    (h : ∀ mp ∈ methods, ∃ pf, mp.2 = JValue.obj pf) :
    ∃ out, removedExistingLoop (.obj ims) methods acc = .ok out ∧
      ∀ v, (v ∈ out ↔ v ∈ acc ∨
        ∃ m props, (m, props) ∈ methods ∧ opIdOf props = some v ∧
          dictGet ims m ≠ some props) := by
  induction methods generalizing acc with
  | nil => exact ⟨acc, rfl, fun v => by simp⟩
  | cons hd tl ih =>
    obtain ⟨m0, props0⟩ := hd
    have hpf' : ∃ pf, props0 = JValue.obj pf := h (m0, props0) (by simp)
    obtain ⟨pf, hpf⟩ := hpf'
    subst hpf
    have htl : ∀ mp ∈ tl, ∃ pf, mp.2 = JValue.obj pf :=
      fun mp hmp => h mp (List.mem_cons_of_mem _ hmp)
    cases him : dictGet ims m0 with
    | none =>
      obtain ⟨out, hout, hchar⟩ := ih (appendIdNew acc (dictGet pf "operationId")) htl
      refine ⟨out, ?_, fun v => ?_⟩
      · simp [removedExistingLoop, asObj, him, hout]
      · rw [hchar v, mem_appendIdNew]
        constructor
        · rintro ((hv | ⟨w, hw, ht, rfl⟩) | ⟨m, props, hmem, hop, hne⟩)
          · exact Or.inl hv
          · refine Or.inr ⟨m0, .obj pf, by simp, (opIdOf_obj pf v).mpr ⟨hw, ht⟩, ?_⟩
            rw [him]
            exact fun hh => Option.noConfusion hh
          · exact Or.inr ⟨m, props, List.mem_cons_of_mem _ hmem, hop, hne⟩
        · rintro (hv | ⟨m, props, hmem, hop, hne⟩)
          · exact Or.inl (Or.inl hv)
          · rcases List.mem_cons.mp hmem with heq | hmem'
            · injection heq with hm hp
              subst hp
              obtain ⟨hg, ht⟩ := (opIdOf_obj pf v).mp hop
              exact Or.inl (Or.inr ⟨v, hg, ht, rfl⟩)
            · exact Or.inr ⟨m, props, hmem', hop, hne⟩
    | some iprops =>
      by_cases hne0 : JValue.obj pf ≠ iprops
      · obtain ⟨out, hout, hchar⟩ := ih (appendIdNew acc (dictGet pf "operationId")) htl
        refine ⟨out, ?_, fun v => ?_⟩
        · simp [removedExistingLoop, asObj, him, if_pos hne0, hout]
        · rw [hchar v, mem_appendIdNew]
          constructor
          · rintro ((hv | ⟨w, hw, ht, rfl⟩) | ⟨m, props, hmem, hop, hne⟩)
            · exact Or.inl hv
            · refine Or.inr ⟨m0, .obj pf, by simp, (opIdOf_obj pf v).mpr ⟨hw, ht⟩, ?_⟩
              rw [him]
              intro hh
              injection hh with hh'
              exact hne0 hh'.symm
            · exact Or.inr ⟨m, props, List.mem_cons_of_mem _ hmem, hop, hne⟩
          · rintro (hv | ⟨m, props, hmem, hop, hne⟩)
            · exact Or.inl (Or.inl hv)
            · rcases List.mem_cons.mp hmem with heq | hmem'
              · injection heq with hm hp
                subst hp
                obtain ⟨hg, ht⟩ := (opIdOf_obj pf v).mp hop
                exact Or.inl (Or.inr ⟨v, hg, ht, rfl⟩)
              · exact Or.inr ⟨m, props, hmem', hop, hne⟩
      · have heq0 : JValue.obj pf = iprops := not_not.mp hne0
        obtain ⟨out, hout, hchar⟩ := ih acc htl
        refine ⟨out, ?_, fun v => ?_⟩
        · simp [removedExistingLoop, asObj, him, if_neg hne0, hout]
        · rw [hchar v]
          constructor
          · rintro (hv | ⟨m, props, hmem, hop, hne⟩)
            · exact Or.inl hv
            · exact Or.inr ⟨m, props, List.mem_cons_of_mem _ hmem, hop, hne⟩
          · rintro (hv | ⟨m, props, hmem, hop, hne⟩)
            · exact Or.inl hv
            · rcases List.mem_cons.mp hmem with heq | hmem'
              · injection heq with hm hp
                subst hp
                subst hm
                exact (hne (by rw [him, heq0])).elim
              · exact Or.inr ⟨m, props, hmem', hop, hne⟩

theorem incomingPass_ok (cf cpaths : List (String × JValue))
    (hcp : dictGet cf "paths" = some (.obj cpaths))
    (hwfc : ∀ pv ∈ cpaths, ∃ cms, pv.2 = JValue.obj cms)
    (spaths : List (String × JValue)) (acc : List JValue)
    (hwfs : ∀ pm ∈ spaths, ∃ ms, pm.2 = JValue.obj ms ∧
      ∀ mp ∈ ms, ∃ pf, mp.2 = JValue.obj pf) :
    ∃ out, incomingPass (.obj cf) spaths acc = .ok out ∧
      ∀ v, (v ∈ out ↔ v ∈ acc ∨
        ∃ p ms m props, (p, JValue.obj ms) ∈ spaths ∧ (m, props) ∈ ms ∧
          opIdOf props = some v ∧ lookupOp cpaths p m ≠ some props) := by
  induction spaths generalizing acc with
  | nil => exact ⟨acc, rfl, fun v => by simp⟩
  | cons hd tl ih =>
    obtain ⟨p0, methodsV⟩ := hd
    obtain ⟨ms0, hms0, hops⟩ := hwfs (p0, methodsV) (by simp)
    have hms0' : methodsV = JValue.obj ms0 := hms0
    subst hms0'
    have htl : ∀ pm ∈ tl, ∃ ms, pm.2 = JValue.obj ms ∧
        ∀ mp ∈ ms, ∃ pf, mp.2 = JValue.obj pf :=
      fun pm hpm => hwfs pm (List.mem_cons_of_mem _ hpm)
    cases hcm : dictGet cpaths p0 with
    | none =>
      have hlook : ∀ m, lookupOp cpaths p0 m = none := by
        intro m
        simp [lookupOp, hcm]
      obtain ⟨acc1, hacc1, hchar1⟩ := newPathLoop_ok ms0 acc hops
      obtain ⟨out, hout, hchar⟩ := ih acc1 htl
      refine ⟨out, ?_, fun v => ?_⟩
      · simp [incomingPass, asObj, getItem, hcp, hcm, hacc1, hout]
      · rw [hchar v, hchar1 v]
        constructor
        · rintro ((hv | ⟨m, props, hmem, hop⟩) | ⟨p, ms, m, props, hpmem, hmem, hop, hne⟩)
          · exact Or.inl hv
          · refine Or.inr ⟨p0, ms0, m, props, by simp, hmem, hop, ?_⟩
            rw [hlook m]
            exact fun hh => Option.noConfusion hh
          · exact Or.inr ⟨p, ms, m, props, List.mem_cons_of_mem _ hpmem, hmem, hop, hne⟩
        · rintro (hv | ⟨p, ms, m, props, hpmem, hmem, hop, hne⟩)
          · exact Or.inl (Or.inl hv)
          · rcases List.mem_cons.mp hpmem with heq | hpmem'
            · injection heq with hp hms
              injection hms with hms'
              subst hp
              subst hms'
              exact Or.inl (Or.inr ⟨m, props, hmem, hop⟩)
            · exact Or.inr ⟨p, ms, m, props, hpmem', hmem, hop, hne⟩
    | some cmsV =>
      obtain ⟨cms, hcms⟩ := hwfc (p0, cmsV) (mem_of_dictGet_eq_some cpaths p0 cmsV hcm)
      have hcms' : cmsV = JValue.obj cms := hcms
      subst hcms'
      have hlook : ∀ m, lookupOp cpaths p0 m = dictGet cms m := by
        intro m
        simp [lookupOp, hcm]
      obtain ⟨acc1, hacc1, hchar1⟩ := existingPathLoop_ok cms ms0 acc hops
      obtain ⟨out, hout, hchar⟩ := ih acc1 htl
      refine ⟨out, ?_, fun v => ?_⟩
      · simp [incomingPass, asObj, getItem, hcp, hcm, hacc1, hout]
      · rw [hchar v, hchar1 v]
        constructor
        · rintro ((hv | ⟨m, props, hmem, hop, hne⟩) | ⟨p, ms, m, props, hpmem, hmem, hop, hne⟩)
          · exact Or.inl hv
          · refine Or.inr ⟨p0, ms0, m, props, by simp, hmem, hop, ?_⟩
            rw [hlook m]
            exact hne
          · exact Or.inr ⟨p, ms, m, props, List.mem_cons_of_mem _ hpmem, hmem, hop, hne⟩
        · rintro (hv | ⟨p, ms, m, props, hpmem, hmem, hop, hne⟩)
          · exact Or.inl (Or.inl hv)
          · rcases List.mem_cons.mp hpmem with heq | hpmem'
            · injection heq with hp hms
              injection hms with hms'
              subst hp
              subst hms'
              refine Or.inl (Or.inr ⟨m, props, hmem, hop, ?_⟩)
              rw [← hlook m]
              exact hne
            · exact Or.inr ⟨p, ms, m, props, hpmem', hmem, hop, hne⟩

theorem removedPass_ok (spaths : List (String × JValue))
    (cpaths : List (String × JValue)) (acc : List JValue)
    (hwfc : ∀ pm ∈ cpaths, ∃ ms, pm.2 = JValue.obj ms ∧
      ∀ mp ∈ ms, ∃ pf, mp.2 = JValue.obj pf)
    (hwfs : ∀ pv ∈ spaths, ∃ ims, pv.2 = JValue.obj ims) :
    ∃ out, removedPass spaths cpaths acc = .ok out ∧
      ∀ v, (v ∈ out ↔ v ∈ acc ∨
        ∃ p ms m props, (p, JValue.obj ms) ∈ cpaths ∧ (m, props) ∈ ms ∧
          opIdOf props = some v ∧ lookupOp spaths p m ≠ some props) := by
  induction cpaths generalizing acc with
  | nil => exact ⟨acc, rfl, fun v => by simp⟩
  | cons hd tl ih =>
    obtain ⟨p0, methodsV⟩ := hd
    obtain ⟨ms0, hms0, hops⟩ := hwfc (p0, methodsV) (by simp)
    have hms0' : methodsV = JValue.obj ms0 := hms0
    subst hms0'
    have htl : ∀ pm ∈ tl, ∃ ms, pm.2 = JValue.obj ms ∧
        ∀ mp ∈ ms, ∃ pf, mp.2 = JValue.obj pf :=
      fun pm hpm => hwfc pm (List.mem_cons_of_mem _ hpm)
    cases hsm : dictGet spaths p0 with
    | none =>
      have hlook : ∀ m, lookupOp spaths p0 m = none := by
        intro m
        simp [lookupOp, hsm]
      obtain ⟨acc1, hacc1, hchar1⟩ := removedAllLoop_ok ms0 acc hops
      obtain ⟨out, hout, hchar⟩ := ih acc1 htl
      refine ⟨out, ?_, fun v => ?_⟩
      · simp [removedPass, asObj, hsm, hacc1, hout]
      · rw [hchar v, hchar1 v]
        constructor
        · rintro ((hv | ⟨m, props, hmem, hop⟩) | ⟨p, ms, m, props, hpmem, hmem, hop, hne⟩)
          · exact Or.inl hv
          · refine Or.inr ⟨p0, ms0, m, props, by simp, hmem, hop, ?_⟩
            rw [hlook m]
            exact fun hh => Option.noConfusion hh
          · exact Or.inr ⟨p, ms, m, props, List.mem_cons_of_mem _ hpmem, hmem, hop, hne⟩
        · rintro (hv | ⟨p, ms, m, props, hpmem, hmem, hop, hne⟩)
          · exact Or.inl (Or.inl hv)
          · rcases List.mem_cons.mp hpmem with heq | hpmem'
            · injection heq with hp hms
              injection hms with hms'
              subst hp
              subst hms'
              exact Or.inl (Or.inr ⟨m, props, hmem, hop⟩)
            · exact Or.inr ⟨p, ms, m, props, hpmem', hmem, hop, hne⟩
    | some imsV =>
      obtain ⟨ims, hims⟩ := hwfs (p0, imsV) (mem_of_dictGet_eq_some spaths p0 imsV hsm)
      have hims' : imsV = JValue.obj ims := hims
      subst hims'
      have hlook : ∀ m, lookupOp spaths p0 m = dictGet ims m := by
        intro m
        simp [lookupOp, hsm]
      obtain ⟨acc1, hacc1, hchar1⟩ := removedExistingLoop_ok ims ms0 acc hops
      obtain ⟨out, hout, hchar⟩ := ih acc1 htl
      refine ⟨out, ?_, fun v => ?_⟩
      · simp [removedPass, asObj, hsm, hacc1, hout]
      · rw [hchar v, hchar1 v]
        constructor
        · rintro ((hv | ⟨m, props, hmem, hop, hne⟩) | ⟨p, ms, m, props, hpmem, hmem, hop, hne⟩)
          · exact Or.inl hv
          · refine Or.inr ⟨p0, ms0, m, props, by simp, hmem, hop, ?_⟩
            rw [hlook m]
            exact hne
          · exact Or.inr ⟨p, ms, m, props, List.mem_cons_of_mem _ hpmem, hmem, hop, hne⟩
        · rintro (hv | ⟨p, ms, m, props, hpmem, hmem, hop, hne⟩)
          · exact Or.inl (Or.inl hv)
          · rcases List.mem_cons.mp hpmem with heq | hpmem'
            · injection heq with hp hms
              injection hms with hms'
              subst hp
              subst hms'
              refine Or.inl (Or.inr ⟨m, props, hmem, hop, ?_⟩)
              rw [← hlook m]
              exact hne
            · exact Or.inr ⟨p, ms, m, props, hpmem', hmem, hop, hne⟩

/-- Whether a JSON value is an object. -/
theorem isObjV_iff (v : JValue) :
    (match v with | JValue.obj _ => true | _ => false) = true ↔
      ∃ fs, v = JValue.obj fs := by
  cases v <;> simp

theorem wfPaths_shape (P : List (String × JValue)) (h : wfPaths P = true) :
    (P.map Prod.fst).Nodup ∧
    ∀ pm ∈ P, ∃ ms, pm.2 = JValue.obj ms ∧ (ms.map Prod.fst).Nodup ∧
      ∀ mp ∈ ms, ∃ pf, mp.2 = JValue.obj pf := by
  simp only [wfPaths, Bool.and_eq_true, decide_eq_true_eq, List.all_eq_true] at h
  refine ⟨h.1, fun pm hpm => ?_⟩
  have h2 := h.2 pm hpm
  cases hv : pm.2 with
  | obj ms =>
    rw [hv] at h2
    simp only [Bool.and_eq_true, decide_eq_true_eq, List.all_eq_true] at h2
    refine ⟨ms, rfl, h2.1, fun mp hmp => ?_⟩
    have h3 := h2.2 mp hmp
    exact (isObjV_iff mp.2).mp h3
  | null => rw [hv] at h2; exact absurd h2 (by simp)
  | bool b => rw [hv] at h2; exact absurd h2 (by simp)
  | num n => rw [hv] at h2; exact absurd h2 (by simp)
  | str s => rw [hv] at h2; exact absurd h2 (by simp)
  | arr elems => rw [hv] at h2; exact absurd h2 (by simp)

theorem memForm_iff_lookupForm (P : List (String × JValue))
    (hnd : (P.map Prod.fst).Nodup)
    (hshape : ∀ pm ∈ P, ∃ ms, pm.2 = JValue.obj ms ∧ (ms.map Prod.fst).Nodup ∧
      ∀ mp ∈ ms, ∃ pf, mp.2 = JValue.obj pf)
    (Q : String → String → JValue → Prop) :
    (∃ p ms m props, (p, JValue.obj ms) ∈ P ∧ (m, props) ∈ ms ∧ Q p m props) ↔
    (∃ p m props, lookupOp P p m = some props ∧ Q p m props) := by
  constructor
  · rintro ⟨p, ms, m, props, hpmem, hmem, hq⟩
    obtain ⟨ms', hms', hnd', _⟩ := hshape (p, JValue.obj ms) hpmem
    have hms'' : JValue.obj ms = JValue.obj ms' := hms'
    injection hms'' with he
    subst he
    have hg : dictGet P p = some (JValue.obj ms) :=
      dictGet_eq_some_of_mem_nodup P p (JValue.obj ms) hnd hpmem
    have hg2 : dictGet ms m = some props :=
      dictGet_eq_some_of_mem_nodup ms m props hnd' hmem
    exact ⟨p, m, props, by simp [lookupOp, hg, hg2], hq⟩
  · rintro ⟨p, m, props, hl, hq⟩
    unfold lookupOp at hl
    cases hpg : dictGet P p with
    | none => rw [hpg] at hl; exact absurd hl (by simp)
    | some x =>
      rw [hpg] at hl
      cases x with
      | obj ms =>
        exact ⟨p, ms, m, props, mem_of_dictGet_eq_some P p _ hpg,
          mem_of_dictGet_eq_some ms m props hl, hq⟩
      | null => exact absurd hl (by simp)
      | bool b => exact absurd hl (by simp)
      | num n => exact absurd hl (by simp)
      | str s => exact absurd hl (by simp)
      | arr elems => exact absurd hl (by simp)

/-- Master characterization of the differ: on well-formed incoming and
cached documents it returns successfully, and its output holds exactly
the changed identifiers described by §4.2 of the specification. -/
theorem diff_ok_mem (files : List (String × JValue)) (swagger : JValue)
    (cpath : String) (sf spaths cf cpaths : List (String × JValue))
    (hfile : dictGet files cpath = some (.obj cf))
    (hs : swagger = .obj sf)
    (hsp : dictGet sf "paths" = some (.obj spaths))
    (hcp : dictGet cf "paths" = some (.obj cpaths))
    (hwfs : wfPaths spaths = true) (hwfc : wfPaths cpaths = true) :
    ∃ out, get_updated_operationIDs_from_cache files swagger cpath = .ok out ∧
      ∀ v, (v ∈ out ↔ DiffSpec spaths cpaths v) := by
  subst hs
  obtain ⟨hnds, hshapeS⟩ := wfPaths_shape spaths hwfs
  obtain ⟨hndc, hshapeC⟩ := wfPaths_shape cpaths hwfc
  have hwfs1 : ∀ pm ∈ spaths, ∃ ms, pm.2 = JValue.obj ms ∧
      ∀ mp ∈ ms, ∃ pf, mp.2 = JValue.obj pf := by
    intro pm hpm
    obtain ⟨ms, h1, _, h3⟩ := hshapeS pm hpm
    exact ⟨ms, h1, h3⟩
  have hwfc1 : ∀ pm ∈ cpaths, ∃ ms, pm.2 = JValue.obj ms ∧
      ∀ mp ∈ ms, ∃ pf, mp.2 = JValue.obj pf := by
    intro pm hpm
    obtain ⟨ms, h1, _, h3⟩ := hshapeC pm hpm
    exact ⟨ms, h1, h3⟩
  have hwfcTop : ∀ pv ∈ cpaths, ∃ cms, pv.2 = JValue.obj cms := by
    intro pv hpv
    obtain ⟨ms, h1, _⟩ := hwfc1 pv hpv
    exact ⟨ms, h1⟩
  have hwfsTop : ∀ pv ∈ spaths, ∃ ims, pv.2 = JValue.obj ims := by
    intro pv hpv
    obtain ⟨ms, h1, _⟩ := hwfs1 pv hpv
    exact ⟨ms, h1⟩
  obtain ⟨out1, hout1, hchar1⟩ := incomingPass_ok cf cpaths hcp hwfcTop spaths [] hwfs1
  obtain ⟨out, hout, hchar⟩ := removedPass_ok spaths cpaths out1 hwfc1 hwfsTop
  refine ⟨out, ?_, fun v => ?_⟩
  · simp [get_updated_operationIDs_from_cache, hfile, asObj, getItem, hsp, hcp,
      hout1, hout]
  · rw [hchar v, hchar1 v]
    simp only [List.not_mem_nil, false_or]
    unfold DiffSpec
    exact or_congr
      (memForm_iff_lookupForm spaths hnds hshapeS
        (fun p m props => opIdOf props = some v ∧ lookupOp cpaths p m ≠ some props))
      (memForm_iff_lookupForm cpaths hndc hshapeC
        (fun p m props => opIdOf props = some v ∧ lookupOp spaths p m ≠ some props))

/- ---------------------------------------------------------------------
Claims about the Operation Differ.
--------------------------------------------------------------------- -/

/-- Claim C1: the claim says diffing any incoming document against an
empty or absent cached document returns the operationIds of the incoming
operations and computes no removals.  The code instead raises: on a
cached document `{}` (empty, as in test case 3 of
test_get_updated_operationIDs_from_cache.py, which expects `[]`) the
removal pass's `cached_spec["paths"]` raises `KeyError`, and on an
absent cached file the guard of lines 142-143 raises `ValueError`.  This
theorem evaluates the differ at both failing inputs. -/
theorem diff_empty_cached_doc_raises :
    get_updated_operationIDs_from_cache [("c.json", .obj [])]
      (.obj [("paths", .obj [])]) "c.json" = .error (.keyError "paths") ∧
    get_updated_operationIDs_from_cache []
      (.obj [("paths", .obj [("/t", .obj [("get",
        .obj [("operationId", .str "x")])])])]) "missing.json" =
      .error (.valueError "Cached spec file not found at missing.json") := by
  constructor
  · decide
  · decide

/-- Claim C8: for every well-formed specification document, diffing it
against an identical cached copy returns the empty list (no
self-diff). -/
theorem diff_self_empty (files : List (String × JValue)) (swagger : JValue)
    (cpath : String) (sf spaths : List (String × JValue))
    (hfile : dictGet files cpath = some (.obj sf))
    (hs : swagger = .obj sf)
    (hsp : dictGet sf "paths" = some (.obj spaths))
    (hwf : wfPaths spaths = true) :
    get_updated_operationIDs_from_cache files swagger cpath = .ok [] := by
  obtain ⟨out, hout, hchar⟩ :=
    diff_ok_mem files swagger cpath sf spaths sf spaths hfile hs hsp hsp hwf hwf
  have hnil : out = [] := by
    apply List.eq_nil_iff_forall_not_mem.mpr
    intro v hv
    rcases (hchar v).mp hv with ⟨p, m, props, h1, _, h3⟩ | ⟨p, m, props, h1, _, h3⟩
    · exact h3 h1
    · exact h3 h1
  rw [hout, hnil]

/-- Witness for C8 at a concrete one-operation document cached as its
own snapshot. -/
theorem diff_self_empty_witness :
    dictGet [("c.json", JValue.obj [("paths", .obj [("/t", .obj [("get",
        .obj [("operationId", .str "x")])])])])] "c.json" =
      some (.obj [("paths", .obj [("/t", .obj [("get",
        .obj [("operationId", .str "x")])])])]) ∧
    wfPaths [("/t", .obj [("get", .obj [("operationId", .str "x")])])] = true ∧
    get_updated_operationIDs_from_cache
      [("c.json", JValue.obj [("paths", .obj [("/t", .obj [("get",
        .obj [("operationId", .str "x")])])])])]
      (.obj [("paths", .obj [("/t", .obj [("get",
        .obj [("operationId", .str "x")])])])]) "c.json" = .ok [] := by
  refine ⟨by decide, by decide, ?_⟩
  exact diff_self_empty
    [("c.json", JValue.obj [("paths", .obj [("/t", .obj [("get",
      .obj [("operationId", .str "x")])])])])]
    (JValue.obj [("paths", .obj [("/t", .obj [("get",
      .obj [("operationId", .str "x")])])])])
    "c.json"
    [("paths", JValue.obj [("/t", .obj [("get",
      .obj [("operationId", .str "x")])])])]
    [("/t", JValue.obj [("get", .obj [("operationId", .str "x")])])]
    (by decide) rfl (by decide) (by decide)

/-- Claim C6: an operation with a (truthy) operationId present in the
cached document whose `(path, method)` slot is absent from the incoming
document (path missing, or method missing under the path) has its
operationId in the diff output. -/
theorem diff_removed_operation_reported (files : List (String × JValue))
    (swagger : JValue) (cpath : String)
    (sf spaths cf cpaths : List (String × JValue)) (p m : String)
    (props v : JValue)
    (hfile : dictGet files cpath = some (.obj cf))
    (hs : swagger = .obj sf)
    (hsp : dictGet sf "paths" = some (.obj spaths))
    (hcp : dictGet cf "paths" = some (.obj cpaths))
    (hwfs : wfPaths spaths = true) (hwfc : wfPaths cpaths = true)
    (hop : lookupOp cpaths p m = some props)
    (hid : opIdOf props = some v)
    (habs : lookupOp spaths p m = none) :
    v ∈ exceptList (get_updated_operationIDs_from_cache files swagger cpath) := by
  obtain ⟨out, hout, hchar⟩ :=
    diff_ok_mem files swagger cpath sf spaths cf cpaths hfile hs hsp hcp hwfs hwfc
  rw [hout]
  show v ∈ out
  refine (hchar v).mpr (Or.inr ⟨p, m, props, hop, hid, ?_⟩)
  rw [habs]
  exact fun hh => Option.noConfusion hh

/-- Witness for C6: the cached document has `DELETE /gone`
(operationId `removedOp`); the incoming document does not have the path
at all. -/
theorem diff_removed_operation_reported_witness :
    lookupOp [("/gone", .obj [("delete", .obj [("operationId", .str "removedOp")])])]
      "/gone" "delete" = some (.obj [("operationId", .str "removedOp")]) ∧
    lookupOp [("/kept", .obj [("get", .obj [("operationId", .str "keptOp")])])]
      "/gone" "delete" = none ∧
    JValue.str "removedOp" ∈ exceptList (get_updated_operationIDs_from_cache
      [("c.json", JValue.obj [("paths", .obj [("/gone", .obj [("delete",
        .obj [("operationId", .str "removedOp")])])])])]
      (.obj [("paths", .obj [("/kept", .obj [("get",
        .obj [("operationId", .str "keptOp")])])])]) "c.json") := by
  refine ⟨by decide, by decide, ?_⟩
  exact diff_removed_operation_reported
    [("c.json", JValue.obj [("paths", .obj [("/gone", .obj [("delete",
      .obj [("operationId", .str "removedOp")])])])])]
    (.obj [("paths", .obj [("/kept", .obj [("get",
      .obj [("operationId", .str "keptOp")])])])])
    "c.json"
    [("paths", JValue.obj [("/kept", .obj [("get",
      .obj [("operationId", .str "keptOp")])])])]
    [("/kept", JValue.obj [("get", .obj [("operationId", .str "keptOp")])])]
    [("paths", JValue.obj [("/gone", .obj [("delete",
      .obj [("operationId", .str "removedOp")])])])]
    [("/gone", JValue.obj [("delete", .obj [("operationId", .str "removedOp")])])]
    "/gone" "delete"
    (JValue.obj [("operationId", .str "removedOp")])
    (JValue.str "removedOp")
    (by decide) rfl (by decide) (by decide) (by decide) (by decide)
    (by decide) (by decide) (by decide)

/-- Claim C5: when the incoming and cached documents agree on every
`(path, method)` slot except one, where the operation objects differ but
carry the same truthy operationId `v` (a change to a non-identifying
field such as the description), the diff output contains exactly `v` and
no other identifier. -/
theorem diff_single_field_change_exact (files : List (String × JValue))
    (swagger : JValue) (cpath : String)
    (sf spaths cf cpaths : List (String × JValue)) (p m : String)
    (o1 o2 v : JValue)
    (hfile : dictGet files cpath = some (.obj cf))
    (hs : swagger = .obj sf)
    (hsp : dictGet sf "paths" = some (.obj spaths))
    (hcp : dictGet cf "paths" = some (.obj cpaths))
    (hwfs : wfPaths spaths = true) (hwfc : wfPaths cpaths = true)
    (hinc : lookupOp spaths p m = some o2)
    (hcache : lookupOp cpaths p m = some o1)
    (hne : o1 ≠ o2)
    (hid1 : opIdOf o1 = some v) (hid2 : opIdOf o2 = some v)
    (hsame : ∀ p' m', (p', m') ≠ (p, m) →
      lookupOp spaths p' m' = lookupOp cpaths p' m') :
    (get_updated_operationIDs_from_cache files swagger cpath).isOk = true ∧
    ∀ w, (w ∈ exceptList (get_updated_operationIDs_from_cache files swagger cpath)
      ↔ w = v) := by
  obtain ⟨out, hout, hchar⟩ :=
    diff_ok_mem files swagger cpath sf spaths cf cpaths hfile hs hsp hcp hwfs hwfc
  rw [hout]
  refine ⟨rfl, fun w => ?_⟩
  show w ∈ out ↔ w = v
  rw [hchar w]
  constructor
  · rintro (⟨p', m', props', hl, hidw, hnel⟩ | ⟨p', m', props', hl, hidw, hnel⟩)
    · by_cases hpm : (p', m') = (p, m)
      · injection hpm with hp hm
        subst hp
        subst hm
        rw [hinc] at hl
        injection hl with hl'
        subst hl'
        rw [hid2] at hidw
        injection hidw with hw
        exact hw.symm
      · rw [hsame p' m' hpm] at hl
        exact absurd hl hnel
    · by_cases hpm : (p', m') = (p, m)
      · injection hpm with hp hm
        subst hp
        subst hm
        rw [hcache] at hl
        injection hl with hl'
        subst hl'
        rw [hid1] at hidw
        injection hidw with hw
        exact hw.symm
      · rw [← hsame p' m' hpm] at hl
        exact absurd hl hnel
  · rintro rfl
    refine Or.inl ⟨p, m, o2, hinc, hid2, ?_⟩
    rw [hcache]
    intro hh
    injection hh with hh'
    exact hne hh'

/-- Witness for C5: the cached and incoming documents hold the single
operation `GET /t` with operationId `op`; only its description differs
(`old` against `new`); the diff output holds `op` and nothing else. -/
theorem diff_single_field_change_exact_witness :
    JValue.obj [("operationId", .str "op"), ("description", .str "old")] ≠
      JValue.obj [("operationId", .str "op"), ("description", .str "new")] ∧
    JValue.str "op" ∈ exceptList (get_updated_operationIDs_from_cache
      [("c.json", JValue.obj [("paths", .obj [("/t", .obj [("get",
        .obj [("operationId", .str "op"), ("description", .str "old")])])])])]
      (.obj [("paths", .obj [("/t", .obj [("get",
        .obj [("operationId", .str "op"), ("description", .str "new")])])])])
      "c.json") ∧
    JValue.str "other" ∉ exceptList (get_updated_operationIDs_from_cache
      [("c.json", JValue.obj [("paths", .obj [("/t", .obj [("get",
        .obj [("operationId", .str "op"), ("description", .str "old")])])])])]
      (.obj [("paths", .obj [("/t", .obj [("get",
        .obj [("operationId", .str "op"), ("description", .str "new")])])])])
      "c.json") := by
  have h := diff_single_field_change_exact
    [("c.json", JValue.obj [("paths", .obj [("/t", .obj [("get",
      .obj [("operationId", .str "op"), ("description", .str "old")])])])])]
    (.obj [("paths", .obj [("/t", .obj [("get",
      .obj [("operationId", .str "op"), ("description", .str "new")])])])])
    "c.json"
    [("paths", JValue.obj [("/t", .obj [("get",
      .obj [("operationId", .str "op"), ("description", .str "new")])])])]
    [("/t", JValue.obj [("get",
      .obj [("operationId", .str "op"), ("description", .str "new")])])]
    [("paths", JValue.obj [("/t", .obj [("get",
      .obj [("operationId", .str "op"), ("description", .str "old")])])])]
    [("/t", JValue.obj [("get",
      .obj [("operationId", .str "op"), ("description", .str "old")])])]
    "/t" "get"
    (JValue.obj [("operationId", .str "op"), ("description", .str "old")])
    (JValue.obj [("operationId", .str "op"), ("description", .str "new")])
    (JValue.str "op")
    (by decide) rfl (by decide) (by decide) (by decide) (by decide)
    (by decide) (by decide) (by decide) (by decide) (by decide)
    (by
      intro p' m' hne'
      by_cases hp : "/t" = p'
      · subst hp
        have hm : ¬ ("get" = m') := by
          intro hmm
          apply hne'
          rw [← hmm]
        simp [lookupOp, dictGet, hm]
      · simp [lookupOp, dictGet, hp])
  refine ⟨by decide, (h.2 (JValue.str "op")).mpr rfl, fun hmem => ?_⟩
  have hh := (h.2 (JValue.str "other")).mp hmem
  exact absurd hh (by decide)

/-- Claim C7 counterexample: two operations new in the incoming document
(paths `/a` and `/b`, absent from the cached snapshot) share the
operationId `dup`; the new-path branch of the differ (lines 153-156)
appends without a duplicate check, so the returned list holds `dup`
twice — the output is not a set. -/
theorem diff_output_duplicates_cex :
    get_updated_operationIDs_from_cache
      [("c.json", .obj [("paths", .obj [])])]
      (.obj [("paths", .obj [
        ("/a", .obj [("get", .obj [("operationId", .str "dup")])]),
        ("/b", .obj [("get", .obj [("operationId", .str "dup")])])])])
      "c.json" = .ok [.str "dup", .str "dup"] := by decide

/-- Claim C7 amended: every element of the diff output is the truthy
operationId of an operation of the incoming or cached document whose
counterpart is absent or different — in particular an operation lacking
a (truthy) `operationId` contributes nothing to the output even if its
content changed.  (The set property of the original claim fails: the
new-path and new-method appends of the incoming pass skip the duplicate
check, see the counterexample.) -/
theorem diff_mem_requires_operationId (files : List (String × JValue))
    (swagger : JValue) (cpath : String)
    (sf spaths cf cpaths : List (String × JValue))
    (hfile : dictGet files cpath = some (.obj cf))
    (hs : swagger = .obj sf)
    (hsp : dictGet sf "paths" = some (.obj spaths))
    (hcp : dictGet cf "paths" = some (.obj cpaths))
    (hwfs : wfPaths spaths = true) (hwfc : wfPaths cpaths = true) :
    ∀ v ∈ exceptList (get_updated_operationIDs_from_cache files swagger cpath),
      DiffSpec spaths cpaths v := by
  obtain ⟨out, hout, hchar⟩ :=
    diff_ok_mem files swagger cpath sf spaths cf cpaths hfile hs hsp hcp hwfs hwfc
  intro v hv
  rw [hout] at hv
  exact (hchar v).mp hv

/-- Witness for the amended C7: the incoming document changes an
operation lacking an operationId (it contributes nothing) and adds
`POST /n` with operationId `newOp`; applied at the member `newOp` of the
concrete output. -/
theorem diff_mem_requires_operationId_witness :
    DiffSpec
      [("/u", JValue.obj [("get", .obj [("description", .str "changed")])]),
       ("/n", JValue.obj [("post", .obj [("operationId", .str "newOp")])])]
      [("/u", JValue.obj [("get", .obj [("description", .str "orig")])])]
      (JValue.str "newOp") := by
  exact diff_mem_requires_operationId
    [("c.json", JValue.obj [("paths",
      .obj [("/u", .obj [("get", .obj [("description", .str "orig")])])])])]
    (.obj [("paths", .obj [
      ("/u", .obj [("get", .obj [("description", .str "changed")])]),
      ("/n", .obj [("post", .obj [("operationId", .str "newOp")])])])])
    "c.json"
    [("paths", JValue.obj [
      ("/u", .obj [("get", .obj [("description", .str "changed")])]),
      ("/n", .obj [("post", .obj [("operationId", .str "newOp")])])])]
    [("/u", JValue.obj [("get", .obj [("description", .str "changed")])]),
     ("/n", JValue.obj [("post", .obj [("operationId", .str "newOp")])])]
    [("paths", JValue.obj [("/u", .obj [("get",
      .obj [("description", .str "orig")])])])]
    [("/u", JValue.obj [("get", .obj [("description", .str "orig")])])]
    (by decide) rfl (by decide) (by decide) (by decide) (by decide)
    (JValue.str "newOp") (by decide)

/- ---------------------------------------------------------------------
Claim about the Spec Cache.
--------------------------------------------------------------------- -/

/-- Claim C9: writing a specification to the cache and checking the
written path against the same specification returns true (round-trip),
while checking against a path that does not exist raises the not-found
`ValueError` of lines 121-122 instead of returning false. -/
theorem cache_roundtrip_and_notfound (files files2 : List (String × JValue))
    (spec spec2 : JValue) (dir badPath : String)
    (hmissing : dictGet files2 badPath = none) :
    check_against_cache (cache_swagger files spec dir).1 spec
        (cache_swagger files spec dir).2 = .ok true ∧
    check_against_cache files2 spec2 badPath =
      .error (.valueError ("Cached spec file not found at " ++ badPath)) := by
  constructor
  · simp [check_against_cache, cache_swagger, dictGet_dictSet_self]
  · unfold check_against_cache
    rw [hmissing]

/-- Witness for C9 at a concrete specification, cache directory and
missing path. -/
theorem cache_roundtrip_and_notfound_witness :
    dictGet [] "nope.json" = none ∧
    check_against_cache
      (cache_swagger [] (JValue.obj [("swagger", .str "2.0")]) ".cache/").1
      (JValue.obj [("swagger", .str "2.0")])
      (cache_swagger [] (JValue.obj [("swagger", .str "2.0")]) ".cache/").2 =
      .ok true ∧
    check_against_cache [] (JValue.obj [("swagger", .str "2.0")]) "nope.json" =
      .error (.valueError "Cached spec file not found at nope.json") := by
  refine ⟨rfl, ?_⟩
  exact cache_roundtrip_and_notfound [] [] (JValue.obj [("swagger", .str "2.0")])
    (JValue.obj [("swagger", .str "2.0")]) ".cache/" "nope.json" rfl

/- ---------------------------------------------------------------------
Lemmas on the Ingestion Driver loops.
--------------------------------------------------------------------- -/

theorem storedKeys_append (a b : List Event) :
    storedKeys (a ++ b) = storedKeys a ++ storedKeys b := by
  simp [storedKeys, List.filterMap_append]

theorem skippedKeys_append (a b : List Event) :
    skippedKeys (a ++ b) = skippedKeys a ++ skippedKeys b := by
  simp [skippedKeys, List.filterMap_append]

theorem flushCount_append (a b : List Event) :
    flushCount (a ++ b) = flushCount a + flushCount b := by
  simp [flushCount, List.filter_append]

/-- One-shot run of the per-path method loop when every non-skipped
operation is processable: it succeeds, stores exactly the keys not in
the skip ledger `L` (in order), skips exactly those in `L`, extends the
in-memory ledger by the stored keys, and flushes at every 5th cumulative
entry; the only file it may write is the checkpoint file. -/
theorem methodLoop_run (env : IngestEnv) (ckpt : String) (resume : Bool)
    (path : String) (L : List (String × JValue))
    (methods : List (String × JValue)) :
    ∀ s : IngestState,
    (∀ mp ∈ methods, (processOne env mp.1 path mp.2).isOk = true ∨
        (resume && dictMem L (mp.1 ++ ":" ++ path)) = true) →
    (∀ mp ∈ methods, dictMem s.processed (mp.1 ++ ":" ++ path) =
        (resume && dictMem L (mp.1 ++ ":" ++ path))) →
    (methodKeys path methods).Nodup →
    ∃ s', methodLoop env ckpt resume path methods s = .ok s' ∧
      storedKeys s'.trace = storedKeys s.trace ++
        (methodKeys path methods).filter (fun k => !(resume && dictMem L k)) ∧
      skippedKeys s'.trace = skippedKeys s.trace ++
        (methodKeys path methods).filter (fun k => resume && dictMem L k) ∧
      (∀ k, dictMem s'.processed k = true ↔ (dictMem s.processed k = true ∨
        k ∈ (methodKeys path methods).filter (fun k => !(resume && dictMem L k)))) ∧
      s'.processed.length = s.processed.length +
        ((methodKeys path methods).filter (fun k => !(resume && dictMem L k))).length ∧
      flushCount s'.trace = flushCount s.trace + periodicFlushes s.processed.length
        ((methodKeys path methods).filter (fun k => !(resume && dictMem L k))).length ∧
      (∀ q, q ≠ ckpt → dictGet s'.files q = dictGet s.files q) := by
  induction methods with
  | nil =>
    intro s _ _ _
    exact ⟨s, rfl, by simp [methodKeys], by simp [methodKeys],
      fun k => by simp [methodKeys], by simp [methodKeys],
      by simp [methodKeys, periodicFlushes], fun q _ => rfl⟩
  | cons hd tl ih =>
    intro s hsh hfresh hnodup
    obtain ⟨m0, props0⟩ := hd
    have hkeys : methodKeys path ((m0, props0) :: tl) =
        (m0 ++ ":" ++ path) :: methodKeys path tl := rfl
    rw [hkeys] at hnodup ⊢
    have hfresh0 : dictMem s.processed (m0 ++ ":" ++ path) =
        (resume && dictMem L (m0 ++ ":" ++ path)) := hfresh (m0, props0) (by simp)
    have hnd0 : (m0 ++ ":" ++ path) ∉ methodKeys path tl := (List.nodup_cons.mp hnodup).1
    have hndtl : (methodKeys path tl).Nodup := (List.nodup_cons.mp hnodup).2
    have hshtl : ∀ mp ∈ tl, (processOne env mp.1 path mp.2).isOk = true ∨
        (resume && dictMem L (mp.1 ++ ":" ++ path)) = true :=
      fun mp hmp => hsh mp (List.mem_cons_of_mem _ hmp)
    by_cases hskip : (resume && dictMem s.processed (m0 ++ ":" ++ path)) = true
    · -- the resume skip branch of lines 111-112
      have hskipB0 : (resume && dictMem L (m0 ++ ":" ++ path)) = true := by
        obtain ⟨hres, hmem⟩ := Bool.and_eq_true_iff.mp hskip
        rw [hfresh0, hres] at hmem
        rw [hres]
        simpa using hmem
      have hfilDrop : ((m0 ++ ":" ++ path) :: methodKeys path tl).filter
          (fun k => !(resume && dictMem L k)) =
          (methodKeys path tl).filter (fun k => !(resume && dictMem L k)) := by
        rw [List.filter_cons, if_neg (by simp [hskipB0])]
      have hfilKeep : ((m0 ++ ":" ++ path) :: methodKeys path tl).filter
          (fun k => resume && dictMem L k) =
          (m0 ++ ":" ++ path) ::
            (methodKeys path tl).filter (fun k => resume && dictMem L k) := by
        rw [List.filter_cons, if_pos (by simp [hskipB0])]
      set s1 : IngestState :=
        { s with trace := s.trace ++ [.skipped (m0 ++ ":" ++ path)] } with hs1
      have hstep : stepOp env ckpt resume path s m0 props0 = .ok s1 := by
        unfold stepOp
        rw [if_pos hskip]
      obtain ⟨s', hs', c1, c2, c3, c4, c5, c6⟩ :=
        ih s1 hshtl (fun mp hmp => hfresh mp (List.mem_cons_of_mem _ hmp)) hndtl
      have ht1 : s1.trace = s.trace ++ [.skipped (m0 ++ ":" ++ path)] := rfl
      have hsk1 : storedKeys s1.trace = storedKeys s.trace := by
        rw [ht1, storedKeys_append]
        simp [storedKeys]
      have hsp1 : skippedKeys s1.trace =
          skippedKeys s.trace ++ [m0 ++ ":" ++ path] := by
        rw [ht1, skippedKeys_append]
        simp [skippedKeys]
      have hfc1 : flushCount s1.trace = flushCount s.trace := by
        rw [ht1, flushCount_append]
        simp [flushCount, isFlushEvent]
      refine ⟨s', by simp [methodLoop, hstep, hs'], ?_, ?_, ?_, ?_, ?_, ?_⟩
      · rw [c1, hsk1, hfilDrop]
      · rw [c2, hsp1, hfilKeep, List.append_assoc]
        rfl
      · intro k
        rw [c3 k, hfilDrop]
      · rw [c4, hfilDrop]
      · rw [c5, hfc1, hfilDrop]
      · exact c6
    · -- the processing branch (lines 115-176)
      have hskipB0 : (resume && dictMem L (m0 ++ ":" ++ path)) = false := by
        cases hb : (resume && dictMem L (m0 ++ ":" ++ path)) with
        | false => rfl
        | true =>
          exfalso
          apply hskip
          obtain ⟨hres, _⟩ := Bool.and_eq_true_iff.mp hb
          rw [hfresh0, hb, hres]
          rfl
      have hfr0 : dictMem s.processed (m0 ++ ":" ++ path) = false := by
        rw [hfresh0, hskipB0]
      have hok : (processOne env m0 path props0).isOk = true := by
        rcases hsh (m0, props0) (by simp) with h | h
        · exact h
        · rw [hskipB0] at h
          exact absurd h (by simp)
      cases hpo : processOne env m0 path props0 with
      | error e =>
        rw [hpo] at hok
        exact absurd hok (by simp [Except.isOk, Except.toBool])
      | ok doc =>
      have hfilKeep : ((m0 ++ ":" ++ path) :: methodKeys path tl).filter
          (fun k => !(resume && dictMem L k)) =
          (m0 ++ ":" ++ path) ::
            (methodKeys path tl).filter (fun k => !(resume && dictMem L k)) := by
        rw [List.filter_cons, if_pos (by simp [hskipB0])]
      have hfilDrop : ((m0 ++ ":" ++ path) :: methodKeys path tl).filter
          (fun k => resume && dictMem L k) =
          (methodKeys path tl).filter (fun k => resume && dictMem L k) := by
        rw [List.filter_cons, if_neg (by simp [hskipB0])]
      have hlen : (dictSet s.processed (m0 ++ ":" ++ path)
          (.obj [("uuid", .str doc.id),
                 ("processed_at", .str (env.now s.documents.length))])).length =
          s.processed.length + 1 :=
        length_dictSet_fresh _ _ _ hfr0
      set entry : JValue := .obj [("uuid", .str doc.id),
        ("processed_at", .str (env.now s.documents.length))] with hentry
      set processed1 : List (String × JValue) :=
        dictSet s.processed (m0 ++ ":" ++ path) entry with hprocessed1
      set s1 : IngestState :=
        { files := if processed1.length % 5 == 0
                   then dictSet s.files ckpt (.obj processed1) else s.files
          processed := processed1
          documents := s.documents ++ [doc]
          trace := s.trace ++ [.stored (m0 ++ ":" ++ path) doc.id] ++
            (if processed1.length % 5 == 0
             then [.flushed ckpt processed1] else []) } with hs1
      have hstep : stepOp env ckpt resume path s m0 props0 = .ok s1 := by
        unfold stepOp
        rw [if_neg hskip, hpo]
      have hfreshtl : ∀ mp ∈ tl, dictMem s1.processed (mp.1 ++ ":" ++ path) =
          (resume && dictMem L (mp.1 ++ ":" ++ path)) := by
        intro mp hmp
        have hne : mp.1 ++ ":" ++ path ≠ m0 ++ ":" ++ path := by
          intro hh
          apply hnd0
          rw [← hh]
          exact List.mem_map.mpr ⟨mp, hmp, rfl⟩
        show dictMem processed1 (mp.1 ++ ":" ++ path) = _
        rw [hprocessed1, dictMem_dictSet]
        simp only [hne, decide_False, Bool.false_or]
        exact hfresh mp (List.mem_cons_of_mem _ hmp)
      obtain ⟨s', hs', c1, c2, c3, c4, c5, c6⟩ := ih s1 hshtl hfreshtl hndtl
      have ht1 : s1.trace = s.trace ++ [.stored (m0 ++ ":" ++ path) doc.id] ++
          (if processed1.length % 5 == 0 then [.flushed ckpt processed1] else []) :=
        rfl
      have hsk1 : storedKeys s1.trace = storedKeys s.trace ++ [m0 ++ ":" ++ path] := by
        rw [ht1, storedKeys_append, storedKeys_append]
        cases hc : (processed1.length % 5 == 0) <;> simp [storedKeys]
      have hsp1 : skippedKeys s1.trace = skippedKeys s.trace := by
        rw [ht1, skippedKeys_append, skippedKeys_append]
        cases hc : (processed1.length % 5 == 0) <;> simp [skippedKeys]
      have hfc1 : flushCount s1.trace = flushCount s.trace +
          (if (s.processed.length + 1) % 5 = 0 then 1 else 0) := by
        rw [ht1, flushCount_append, flushCount_append]
        cases hc : (processed1.length % 5 == 0) with
        | true =>
          have hp : (s.processed.length + 1) % 5 = 0 := by
            rw [← hlen]
            simpa using hc
          simp [flushCount, isFlushEvent, hp]
        | false =>
          have hp : ¬ ((s.processed.length + 1) % 5 = 0) := by
            rw [← hlen]
            simpa using hc
          simp [flushCount, isFlushEvent, hp]
      have hfl1 : ∀ q, q ≠ ckpt → dictGet s1.files q = dictGet s.files q := by
        intro q hq
        show dictGet (if processed1.length % 5 == 0
          then dictSet s.files ckpt (.obj processed1) else s.files) q = _
        cases hc : (processed1.length % 5 == 0) with
        | true => simp [dictGet_dictSet_ne s.files ckpt q _ hq]
        | false => simp
      have hln1 : s1.processed.length = s.processed.length + 1 := hlen
      have hmem1 : ∀ k, dictMem s1.processed k = true ↔
          (k = m0 ++ ":" ++ path ∨ dictMem s.processed k = true) := by
        intro k
        show dictMem processed1 k = true ↔ _
        rw [hprocessed1, dictMem_dictSet]
        by_cases hk : k = m0 ++ ":" ++ path <;> simp [hk]
      refine ⟨s', by simp [methodLoop, hstep, hs'], ?_, ?_, ?_, ?_, ?_, ?_⟩
      · rw [c1, hsk1, hfilKeep, List.append_assoc]
        rfl
      · rw [c2, hsp1, hfilDrop]
      · intro k
        rw [c3 k, hmem1 k, hfilKeep]
        constructor
        · rintro ((rfl | hmem) | hfil)
          · exact Or.inr (List.mem_cons_self _ _)
          · exact Or.inl hmem
          · exact Or.inr (List.mem_cons_of_mem _ hfil)
        · rintro (hmem | hc)
          · exact Or.inl (Or.inr hmem)
          · rcases List.mem_cons.mp hc with rfl | hfil
            · exact Or.inl (Or.inl rfl)
            · exact Or.inr hfil
      · rw [c4, hln1, hfilKeep]
        simp only [List.length_cons]
        omega
      · rw [c5, hfc1, hln1, hfilKeep]
        simp only [List.length_cons]
        have hpf : periodicFlushes s.processed.length
            (((methodKeys path tl).filter (fun k => !(resume && dictMem L k))).length + 1) =
            (if (s.processed.length + 1) % 5 = 0 then 1 else 0) +
            periodicFlushes (s.processed.length + 1)
              ((methodKeys path tl).filter (fun k => !(resume && dictMem L k))).length := rfl
        rw [hpf]
        omega
      · intro q hq
        rw [c6 q hq, hfl1 q hq]

theorem bool_eq_of_iff {a b : Bool} (h : a = true ↔ b = true) : a = b := by
  cases a <;> cases b <;> simp_all

theorem periodicFlushes_add (a : Nat) : ∀ start b,
    periodicFlushes start (a + b) =
      periodicFlushes start a + periodicFlushes (start + a) b := by
  induction a with
  | zero =>
    intro start b
    simp [periodicFlushes]
  | succ k ih =>
    intro start b
    have h1 : k + 1 + b = (k + b) + 1 := by omega
    rw [h1]
    show (if (start + 1) % 5 = 0 then 1 else 0) + periodicFlushes (start + 1) (k + b) = _
    rw [ih (start + 1) b]
    have h2 : start + 1 + k = start + (k + 1) := by omega
    rw [h2]
    show _ = ((if (start + 1) % 5 = 0 then 1 else 0) + periodicFlushes (start + 1) k) +
      periodicFlushes (start + (k + 1)) b
    omega

/-- One-shot run of the outer path loop; same shape as
`methodLoop_run`, over all `(method, path)` keys of the document. -/
theorem pathLoop_run (env : IngestEnv) (ckpt : String) (resume : Bool)
    (L : List (String × JValue)) (paths : List (String × JValue)) :
    ∀ s : IngestState,
    (∀ pm ∈ paths, ∃ ms, pm.2 = JValue.obj ms ∧
      ∀ mp ∈ ms, (processOne env mp.1 pm.1 mp.2).isOk = true ∨
        (resume && dictMem L (mp.1 ++ ":" ++ pm.1)) = true) →
    (∀ k ∈ allKeys paths, dictMem s.processed k = (resume && dictMem L k)) →
    (allKeys paths).Nodup →
    ∃ s', pathLoop env ckpt resume paths s = .ok s' ∧
      storedKeys s'.trace = storedKeys s.trace ++
        (allKeys paths).filter (fun k => !(resume && dictMem L k)) ∧
      skippedKeys s'.trace = skippedKeys s.trace ++
        (allKeys paths).filter (fun k => resume && dictMem L k) ∧
      (∀ k, dictMem s'.processed k = true ↔ (dictMem s.processed k = true ∨
        k ∈ (allKeys paths).filter (fun k => !(resume && dictMem L k)))) ∧
      s'.processed.length = s.processed.length +
        ((allKeys paths).filter (fun k => !(resume && dictMem L k))).length ∧
      flushCount s'.trace = flushCount s.trace + periodicFlushes s.processed.length
        ((allKeys paths).filter (fun k => !(resume && dictMem L k))).length ∧
      (∀ q, q ≠ ckpt → dictGet s'.files q = dictGet s.files q) := by
  induction paths with
  | nil =>
    intro s _ _ _
    exact ⟨s, rfl, by simp [allKeys], by simp [allKeys], fun k => by simp [allKeys],
      by simp [allKeys], by simp [allKeys, periodicFlushes], fun q _ => rfl⟩
  | cons hd tl ih =>
    intro s hsh hfresh hnodup
    obtain ⟨p0, methodsV⟩ := hd
    obtain ⟨ms0, hms0, hops⟩ := hsh (p0, methodsV) (by simp)
    have hms0' : methodsV = JValue.obj ms0 := hms0
    subst hms0'
    have hall : allKeys ((p0, JValue.obj ms0) :: tl) =
        methodKeys p0 ms0 ++ allKeys tl := rfl
    rw [hall] at hnodup hfresh ⊢
    obtain ⟨hnd1, hnd2, hdisj⟩ := List.nodup_append.mp hnodup
    obtain ⟨s1, hs1, d1, d2, d3, d4, d5, d6⟩ :=
      methodLoop_run env ckpt resume p0 L ms0 s hops
        (fun mp hmp => hfresh (mp.1 ++ ":" ++ p0)
          (List.mem_append_left _ (List.mem_map.mpr ⟨mp, hmp, rfl⟩)))
        hnd1
    have hshtl : ∀ pm ∈ tl, ∃ ms, pm.2 = JValue.obj ms ∧
        ∀ mp ∈ ms, (processOne env mp.1 pm.1 mp.2).isOk = true ∨
          (resume && dictMem L (mp.1 ++ ":" ++ pm.1)) = true :=
      fun pm hpm => hsh pm (List.mem_cons_of_mem _ hpm)
    have hfreshtl : ∀ k ∈ allKeys tl,
        dictMem s1.processed k = (resume && dictMem L k) := by
      intro k hk
      have hnotin : k ∉ methodKeys p0 ms0 := fun hin => (hdisj hin) hk
      have hnotfil : k ∉ (methodKeys p0 ms0).filter
          (fun k => !(resume && dictMem L k)) :=
        fun hin => hnotin (List.mem_of_mem_filter hin)
      apply bool_eq_of_iff
      constructor
      · intro h1
        rcases (d3 k).mp h1 with h | h
        · rw [← hfresh k (List.mem_append_right _ hk)]
          exact h
        · exact absurd h hnotfil
      · intro h1
        refine (d3 k).mpr (Or.inl ?_)
        rw [hfresh k (List.mem_append_right _ hk)]
        exact h1
    obtain ⟨s', hs', e1, e2, e3, e4, e5, e6⟩ := ih s1 hshtl hfreshtl hnd2
    refine ⟨s', by simp [pathLoop, asObj, hs1, hs'], ?_, ?_, ?_, ?_, ?_, ?_⟩
    · rw [e1, d1, List.filter_append, List.append_assoc]
    · rw [e2, d2, List.filter_append, List.append_assoc]
    · intro k
      rw [e3 k, d3 k, List.filter_append, List.mem_append]
      tauto
    · rw [e4, d4, List.filter_append, List.length_append]
      omega
    · rw [e5, d5, d4, List.filter_append, List.length_append, periodicFlushes_add]
      omega
    · intro q hq
      rw [e6 q hq, d6 q hq]

/-- Case analysis of one endpoint step: a resume skip, a successful
store (with its optional periodic flush), or a failure whose handler
dumps the current ledger to the checkpoint file before re-raising. -/
theorem stepOp_shape (env : IngestEnv) (ckpt : String) (resume : Bool)
    (path : String) (s : IngestState) (method : String) (properties : JValue) :
    (∃ s1, stepOp env ckpt resume path s method properties = .ok s1 ∧
      storedKeys s1.trace = storedKeys s.trace ∧ s1.processed = s.processed ∧
      s1.files = s.files) ∨
    (∃ s1 doc, stepOp env ckpt resume path s method properties = .ok s1 ∧
      storedKeys s1.trace = storedKeys s.trace ++ [method ++ ":" ++ path] ∧
      s1.processed = dictSet s.processed (method ++ ":" ++ path)
        (.obj [("uuid", .str (Doc.id doc)),
               ("processed_at", .str (env.now s.documents.length))]) ∧
      (s1.files = s.files ∨ s1.files = dictSet s.files ckpt (.obj s1.processed))) ∨
    (∃ e s1, stepOp env ckpt resume path s method properties = .error (e, s1) ∧
      storedKeys s1.trace = storedKeys s.trace ∧ s1.processed = s.processed ∧
      s1.files = dictSet s.files ckpt (.obj s.processed)) := by
  unfold stepOp
  by_cases hskip : (resume && dictMem s.processed (method ++ ":" ++ path)) = true
  · rw [if_pos hskip]
    refine Or.inl ⟨_, rfl, ?_, rfl, rfl⟩
    show storedKeys (s.trace ++ [.skipped (method ++ ":" ++ path)]) = _
    rw [storedKeys_append]
    simp [storedKeys]
  · rw [if_neg hskip]
    cases hpo : processOne env method path properties with
    | error e =>
      refine Or.inr (Or.inr ⟨e, _, rfl, ?_, rfl, rfl⟩)
      show storedKeys (s.trace ++ [.failed (method ++ ":" ++ path),
        .flushed ckpt s.processed]) = _
      rw [storedKeys_append]
      simp [storedKeys]
    | ok doc =>
      refine Or.inr (Or.inl ⟨_, doc, rfl, ?_, rfl, ?_⟩)
      · show storedKeys (s.trace ++ [.stored (method ++ ":" ++ path) doc.id] ++ _) = _
        rw [storedKeys_append, storedKeys_append]
        cases hc : ((dictSet s.processed (method ++ ":" ++ path)
          (.obj [("uuid", .str doc.id),
            ("processed_at", .str (env.now s.documents.length))])).length % 5 == 0) <;>
          simp [storedKeys]
      · cases hc : ((dictSet s.processed (method ++ ":" ++ path)
          (.obj [("uuid", .str doc.id),
            ("processed_at", .str (env.now s.documents.length))])).length % 5 == 0) with
        | true =>
          right
          simp [hc]
        | false =>
          left
          simp [hc]

/-- Along any run of the method loop, every key that has a store event
is in the in-memory ledger, and on the failure exit the checkpoint file
holds the full current ledger. -/
theorem methodLoop_inv (env : IngestEnv) (ckpt : String) (resume : Bool)
    (path : String) (methods : List (String × JValue)) :
    ∀ s : IngestState,
    (∀ k ∈ storedKeys s.trace, dictMem s.processed k = true) →
    (∀ s1, methodLoop env ckpt resume path methods s = .ok s1 →
      ∀ k ∈ storedKeys s1.trace, dictMem s1.processed k = true) ∧
    (∀ e s1, methodLoop env ckpt resume path methods s = .error (e, s1) →
      (∀ k ∈ storedKeys s1.trace, dictMem s1.processed k = true) ∧
      dictGet s1.files ckpt = some (JValue.obj s1.processed)) := by
  induction methods with
  | nil =>
    intro s hinv
    constructor
    · intro s1 h
      injection h with h1
      subst h1
      exact hinv
    · intro e s1 h
      exact absurd h (by simp [methodLoop])
  | cons hd tl ih =>
    intro s hinv
    obtain ⟨m0, props0⟩ := hd
    rcases stepOp_shape env ckpt resume path s m0 props0 with
      ⟨s1, hstep, hsk, hpr, _⟩ | ⟨s1, doc, hstep, hsk, hpr, _⟩ |
      ⟨e0, s1, hstep, hsk, hpr, hfl⟩
    · have hinv1 : ∀ k ∈ storedKeys s1.trace, dictMem s1.processed k = true := by
        intro k hk
        rw [hsk] at hk
        rw [hpr]
        exact hinv k hk
      have hred : methodLoop env ckpt resume path ((m0, props0) :: tl) s =
          methodLoop env ckpt resume path tl s1 := by
        simp [methodLoop, hstep]
      rw [hred]
      exact ih s1 hinv1
    · have hinv1 : ∀ k ∈ storedKeys s1.trace, dictMem s1.processed k = true := by
        intro k hk
        rw [hsk] at hk
        rw [hpr, dictMem_dictSet]
        rcases List.mem_append.mp hk with hold | hnew
        · rw [hinv k hold]
          simp
        · simp only [List.mem_singleton] at hnew
          subst hnew
          simp
      have hred : methodLoop env ckpt resume path ((m0, props0) :: tl) s =
          methodLoop env ckpt resume path tl s1 := by
        simp [methodLoop, hstep]
      rw [hred]
      exact ih s1 hinv1
    · have hred : methodLoop env ckpt resume path ((m0, props0) :: tl) s =
          .error (e0, s1) := by
        simp [methodLoop, hstep]
      rw [hred]
      constructor
      · intro s2 h
        exact absurd h (by simp)
      · intro e s2 h
        injection h with h1
        have h2 : s1 = s2 := congrArg Prod.snd h1
        subst h2
        constructor
        · intro k hk
          rw [hsk] at hk
          rw [hpr]
          exact hinv k hk
        · rw [hfl, hpr]
          exact dictGet_dictSet_self s.files ckpt (JValue.obj s.processed)

/-- Lifting of `methodLoop_inv` to the path loop (the spec tree shape is
needed to rule out the non-dict `endpoint.items()` exit, which the
counting loop has already excluded before processing starts). -/
theorem pathLoop_inv (env : IngestEnv) (ckpt : String) (resume : Bool) :
    ∀ paths : List (String × JValue), pathsShape paths = true →
    ∀ s : IngestState,
    (∀ k ∈ storedKeys s.trace, dictMem s.processed k = true) →
    (∀ s1, pathLoop env ckpt resume paths s = .ok s1 →
      ∀ k ∈ storedKeys s1.trace, dictMem s1.processed k = true) ∧
    (∀ e s1, pathLoop env ckpt resume paths s = .error (e, s1) →
      (∀ k ∈ storedKeys s1.trace, dictMem s1.processed k = true) ∧
      dictGet s1.files ckpt = some (JValue.obj s1.processed)) := by
  intro paths
  induction paths with
  | nil =>
    intro _ s hinv
    constructor
    · intro s1 h
      injection h with h1
      subst h1
      exact hinv
    · intro e s1 h
      exact absurd h (by simp [pathLoop])
  | cons hd tl ih =>
    intro hshape s hinv
    obtain ⟨p0, methodsV⟩ := hd
    simp only [pathsShape, List.all_cons, Bool.and_eq_true] at hshape
    obtain ⟨ms0, hms0⟩ := (isObjV_iff methodsV).mp hshape.1
    subst hms0
    cases hml : methodLoop env ckpt resume p0 ms0 s with
    | ok s1 =>
      have h1 := (methodLoop_inv env ckpt resume p0 ms0 s hinv).1 s1 hml
      have hred : pathLoop env ckpt resume ((p0, JValue.obj ms0) :: tl) s =
          pathLoop env ckpt resume tl s1 := by
        simp [pathLoop, asObj, hml]
      rw [hred]
      exact ih hshape.2 s1 h1
    | error es =>
      obtain ⟨e1, s1⟩ := es
      have h1 := (methodLoop_inv env ckpt resume p0 ms0 s hinv).2 e1 s1 hml
      have hred : pathLoop env ckpt resume ((p0, JValue.obj ms0) :: tl) s =
          .error (e1, s1) := by
        simp [pathLoop, asObj, hml]
      rw [hred]
      constructor
      · intro s2 h
        exact absurd h (by simp)
      · intro e s2 h
        injection h with h2
        have h3 : s1 = s2 := congrArg Prod.snd h2
        subst h3
        exact h1

theorem countPass_ok (resume : Bool) (processed : List (String × JValue)) :
    ∀ paths, pathsShape paths = true →
    ∃ n, countPass resume processed paths = .ok n := by
  intro paths
  induction paths with
  | nil =>
    intro _
    exact ⟨0, rfl⟩
  | cons hd tl ih =>
    intro hshape
    obtain ⟨p0, methodsV⟩ := hd
    simp only [pathsShape, List.all_cons, Bool.and_eq_true] at hshape
    obtain ⟨ms0, hms0⟩ := (isObjV_iff methodsV).mp hshape.1
    subst hms0
    obtain ⟨n, hn⟩ := ih hshape.2
    refine ⟨(ms0.filter
      (fun mp => !(resume && dictMem processed (mp.1 ++ ":" ++ p0)))).length + n, ?_⟩
    rw [countPass, hn]
    rfl

theorem pathsShape_of_readyPaths (env : IngestEnv) (L : List (String × JValue))
    (P : List (String × JValue)) (h : readyPaths env L P = true) :
    pathsShape P = true := by
  simp only [readyPaths, List.all_eq_true] at h
  simp only [pathsShape, List.all_eq_true]
  intro pm hpm
  have h2 := h pm hpm
  cases hv : pm.2 with
  | obj ms => rfl
  | null => rw [hv] at h2; exact absurd h2 (by simp)
  | bool b => rw [hv] at h2; exact absurd h2 (by simp)
  | num n => rw [hv] at h2; exact absurd h2 (by simp)
  | str s => rw [hv] at h2; exact absurd h2 (by simp)
  | arr elems => rw [hv] at h2; exact absurd h2 (by simp)

theorem readyPaths_decomp (env : IngestEnv) (L : List (String × JValue))
    (P : List (String × JValue)) (h : readyPaths env L P = true)
    (resume : Bool) (hres : resume = true ∨ L = []) :
    ∀ pm ∈ P, ∃ ms, pm.2 = JValue.obj ms ∧
      ∀ mp ∈ ms, (processOne env mp.1 pm.1 mp.2).isOk = true ∨
        (resume && dictMem L (mp.1 ++ ":" ++ pm.1)) = true := by
  intro pm hpm
  simp only [readyPaths, List.all_eq_true] at h
  have h2 := h pm hpm
  cases hv : pm.2 with
  | obj ms =>
    rw [hv] at h2
    simp only [List.all_eq_true] at h2
    refine ⟨ms, rfl, fun mp hmp => ?_⟩
    have h3 := h2 mp hmp
    rcases Bool.or_eq_true_iff.mp h3 with hmem | hok
    · rcases hres with hres | hres
      · right
        rw [hres, hmem]
        rfl
      · rw [hres] at hmem
        simp [dictMem, dictGet] at hmem
    · left
      exact hok
  | null => rw [hv] at h2; exact absurd h2 (by simp)
  | bool b => rw [hv] at h2; exact absurd h2 (by simp)
  | num n => rw [hv] at h2; exact absurd h2 (by simp)
  | str s => rw [hv] at h2; exact absurd h2 (by simp)
  | arr elems => rw [hv] at h2; exact absurd h2 (by simp)

theorem periodicFlushes_eq (n : Nat) : ∀ start,
    periodicFlushes start n = (start + n) / 5 - start / 5 := by
  induction n with
  | zero =>
    intro start
    simp [periodicFlushes]
  | succ k ih =>
    intro start
    show (if (start + 1) % 5 = 0 then 1 else 0) + periodicFlushes (start + 1) k = _
    rw [ih (start + 1)]
    by_cases h : (start + 1) % 5 = 0
    · rw [if_pos h]
      omega
    · rw [if_neg h]
      omega

/-- Complete account of a successful ingestion run: outcome, stored and
skipped keys, final ledger coverage, flush count, and the final
filesystem (ledger archived under the timestamped log name, checkpoint
file removed, nothing else touched). -/
theorem ingest_run (env : IngestEnv) (swagger : JValue)
    (files0 : List (String × JValue)) (ckpt log : String) (resume : Bool)
    (sf spaths : List (String × JValue))
    (hs : swagger = JValue.obj sf)
    (hsp : dictGet sf "paths" = some (.obj spaths))
    (hready : readyPaths env (loadedLedger files0 ckpt resume) spaths = true)
    (hnodup : (allKeys spaths).Nodup) :
    (ingest_swagger env swagger files0 ckpt log resume).outcome.isOk = true ∧
    storedKeys (ingest_swagger env swagger files0 ckpt log resume).trace =
      (allKeys spaths).filter
        (fun k => !(resume && dictMem (loadedLedger files0 ckpt resume) k)) ∧
    skippedKeys (ingest_swagger env swagger files0 ckpt log resume).trace =
      (allKeys spaths).filter
        (fun k => resume && dictMem (loadedLedger files0 ckpt resume) k) ∧
    (∀ k ∈ allKeys spaths,
      dictMem (ingest_swagger env swagger files0 ckpt log resume).processed k = true) ∧
    flushCount (ingest_swagger env swagger files0 ckpt log resume).trace =
      periodicFlushes (loadedLedger files0 ckpt resume).length
        ((allKeys spaths).filter
          (fun k => !(resume && dictMem (loadedLedger files0 ckpt resume) k))).length
        + 1 ∧
    dictGet (ingest_swagger env swagger files0 ckpt log resume).files
        (archiveName log env.archiveTs) =
      some (.obj (ingest_swagger env swagger files0 ckpt log resume).processed) ∧
    (archiveName log env.archiveTs ≠ ckpt →
      dictGet (ingest_swagger env swagger files0 ckpt log resume).files ckpt = none) ∧
    (∀ q, q ≠ ckpt → q ≠ archiveName log env.archiveTs →
      dictGet (ingest_swagger env swagger files0 ckpt log resume).files q =
        dictGet files0 q) := by
  subst hs
  have hres : resume = true ∨ loadedLedger files0 ckpt resume = [] := by
    cases resume with
    | true => exact Or.inl rfl
    | false => exact Or.inr rfl
  have hsh := readyPaths_decomp env (loadedLedger files0 ckpt resume) spaths
    hready resume hres
  have hshape := pathsShape_of_readyPaths env _ spaths hready
  obtain ⟨n, hcount⟩ := countPass_ok resume (loadedLedger files0 ckpt resume)
    spaths hshape
  have hfresh : ∀ k ∈ allKeys spaths,
      dictMem (loadedLedger files0 ckpt resume) k =
        (resume && dictMem (loadedLedger files0 ckpt resume) k) := by
    intro k _
    cases resume with
    | true => simp
    | false => simp [loadedLedger, dictMem, dictGet]
  obtain ⟨s', hploop, c1, c2, c3, c4, c5, c6⟩ :=
    pathLoop_run env ckpt resume (loadedLedger files0 ckpt resume) spaths
      ⟨files0, loadedLedger files0 ckpt resume, [], []⟩ hsh hfresh hnodup
  have hrun : ingest_swagger env (JValue.obj sf) files0 ckpt log resume =
      ⟨dictSet (dictErase (dictSet s'.files ckpt (.obj s'.processed)) ckpt)
         (archiveName log env.archiveTs) (.obj s'.processed),
       s'.trace ++ [.flushed ckpt s'.processed] ++
         [.renamed ckpt (archiveName log env.archiveTs)],
       s'.processed, .ok s'.documents⟩ := by
    simp only [ingest_swagger, asObj, getItem, hsp, hcount, hploop,
      dictGet_dictSet_self]
  refine ⟨?_, ?_, ?_, ?_, ?_, ?_, ?_, ?_⟩
  · rw [hrun]
    rfl
  · rw [hrun]
    show storedKeys (s'.trace ++ _ ++ _) = _
    rw [storedKeys_append, storedKeys_append, c1]
    simp [storedKeys]
  · rw [hrun]
    show skippedKeys (s'.trace ++ _ ++ _) = _
    rw [skippedKeys_append, skippedKeys_append, c2]
    simp [skippedKeys]
  · intro k hk
    rw [hrun]
    show dictMem s'.processed k = true
    by_cases hb : (resume && dictMem (loadedLedger files0 ckpt resume) k) = true
    · refine (c3 k).mpr (Or.inl ?_)
      show dictMem (loadedLedger files0 ckpt resume) k = true
      exact (Bool.and_eq_true_iff.mp hb).2
    · have hb' : (resume && dictMem (loadedLedger files0 ckpt resume) k) = false := by
        cases hbb : (resume && dictMem (loadedLedger files0 ckpt resume) k) with
        | false => rfl
        | true => exact absurd hbb hb
      refine (c3 k).mpr (Or.inr (List.mem_filter.mpr ⟨hk, ?_⟩))
      rw [hb']
      rfl
  · rw [hrun]
    show flushCount (s'.trace ++ _ ++ _) = _
    rw [flushCount_append, flushCount_append, c5]
    simp [flushCount, isFlushEvent]
  · rw [hrun]
    show dictGet (dictSet _ (archiveName log env.archiveTs) _)
      (archiveName log env.archiveTs) = _
    rw [dictGet_dictSet_self]
  · intro hts
    rw [hrun]
    show dictGet (dictSet (dictErase _ ckpt) (archiveName log env.archiveTs) _) ckpt = _
    rw [dictGet_dictSet_ne _ _ _ _ (Ne.symm hts), dictGet_dictErase_self]
  · intro q hq hqt
    rw [hrun]
    show dictGet (dictSet (dictErase (dictSet s'.files ckpt _) ckpt)
      (archiveName log env.archiveTs) _) q = _
    rw [dictGet_dictSet_ne _ _ _ _ hqt, dictGet_dictErase_ne _ _ _ hq,
      dictGet_dictSet_ne _ _ _ _ hq]
    exact c6 q hq

/- ---------------------------------------------------------------------
Claims about the Ingestion Driver.
--------------------------------------------------------------------- -/

/-- Claim C2 counterexample: a successful one-operation run starting
from an empty filesystem ends with exactly one file — the archived
checkpoint ledger — and that file's content is not the ingested
specification snapshot: the driver never updates the Spec Cache
(`cache_swagger` has no caller in `ingest_swagger` or anywhere on the
ingestion path). -/
theorem ingest_complete_no_cache_update_cex :
    (ingest_swagger envDefault
      (.obj [("paths", .obj [("/t", .obj [("get", sampleOp "op1")])])])
      [] "swagger_ingestion_progress.json" "swagger_ingestion_log.json"
      false).outcome.isOk = true ∧
    (ingest_swagger envDefault
      (.obj [("paths", .obj [("/t", .obj [("get", sampleOp "op1")])])])
      [] "swagger_ingestion_progress.json" "swagger_ingestion_log.json"
      false).files =
      [("swagger_ingestion_log_20250101_000000.json",
        .obj [("get:/t", .obj [("uuid", .str "op1"),
          ("processed_at", .str "2025-01-01 00:00:00")])])] ∧
    JValue.obj [("get:/t", .obj [("uuid", .str "op1"),
        ("processed_at", .str "2025-01-01 00:00:00")])] ≠
      JValue.obj [("paths", .obj [("/t", .obj [("get", sampleOp "op1")])])] := by
  exact ⟨by decide, by decide, by decide⟩

/-- Claim C2 amended: when an ingestion run completes successfully, the
driver writes the final ledger to the checkpoint file and renames it to
the timestamped historical log file; it does not update the Spec Cache —
apart from the checkpoint file and the archived log, no file of the
filesystem changes. -/
theorem ingest_complete_archives_ledger_only (env : IngestEnv) (swagger : JValue)
    (files0 : List (String × JValue)) (ckpt log : String) (resume : Bool)
    (sf spaths : List (String × JValue))
    (hs : swagger = JValue.obj sf)
    (hsp : dictGet sf "paths" = some (.obj spaths))
    (hready : readyPaths env (loadedLedger files0 ckpt resume) spaths = true)
    (hnodup : (allKeys spaths).Nodup) :
    (ingest_swagger env swagger files0 ckpt log resume).outcome.isOk = true ∧
    dictGet (ingest_swagger env swagger files0 ckpt log resume).files
        (archiveName log env.archiveTs) =
      some (.obj (ingest_swagger env swagger files0 ckpt log resume).processed) ∧
    (archiveName log env.archiveTs ≠ ckpt →
      dictGet (ingest_swagger env swagger files0 ckpt log resume).files ckpt = none) ∧
    (∀ q, q ≠ ckpt → q ≠ archiveName log env.archiveTs →
      dictGet (ingest_swagger env swagger files0 ckpt log resume).files q =
        dictGet files0 q) := by
  obtain ⟨h1, _, _, _, _, h6, h7, h8⟩ :=
    ingest_run env swagger files0 ckpt log resume sf spaths hs hsp hready hnodup
  exact ⟨h1, h6, h7, h8⟩

/-- Witness for the amended C2 at a concrete one-operation run: the
archived log holds the final ledger, the checkpoint file is gone, and
the spec-cache path (`.cache/swagger_cache.json`) is untouched. -/
theorem ingest_complete_archives_ledger_only_witness :
    readyPaths envDefault (loadedLedger [] "swagger_ingestion_progress.json" false)
      [("/t", JValue.obj [("get", sampleOp "op1")])] = true ∧
    (allKeys [("/t", JValue.obj [("get", sampleOp "op1")])]).Nodup ∧
    (ingest_swagger envDefault
      (.obj [("paths", .obj [("/t", .obj [("get", sampleOp "op1")])])])
      [] "swagger_ingestion_progress.json" "swagger_ingestion_log.json"
      false).outcome.isOk = true ∧
    dictGet (ingest_swagger envDefault
      (.obj [("paths", .obj [("/t", .obj [("get", sampleOp "op1")])])])
      [] "swagger_ingestion_progress.json" "swagger_ingestion_log.json"
      false).files "swagger_ingestion_progress.json" = none ∧
    dictGet (ingest_swagger envDefault
      (.obj [("paths", .obj [("/t", .obj [("get", sampleOp "op1")])])])
      [] "swagger_ingestion_progress.json" "swagger_ingestion_log.json"
      false).files ".cache/swagger_cache.json" = none := by
  have h := ingest_complete_archives_ledger_only envDefault
    (.obj [("paths", .obj [("/t", .obj [("get", sampleOp "op1")])])])
    [] "swagger_ingestion_progress.json" "swagger_ingestion_log.json" false
    [("paths", JValue.obj [("/t", .obj [("get", sampleOp "op1")])])]
    [("/t", JValue.obj [("get", sampleOp "op1")])]
    rfl (by decide) (by decide) (by decide)
  refine ⟨by decide, by decide, h.1, ?_, ?_⟩
  · exact h.2.2.1 (by decide)
  · rw [h.2.2.2 ".cache/swagger_cache.json" (by decide) (by decide)]
    rfl

/-- Claim C3: with resume enabled and the checkpoint ledger `L` on disk
at the checkpoint path, ingestion skips exactly the `(method, path)`
keys recorded in `L` and stores a record for — and checkpoints — every
remaining `(method, path)` pair of the document (provided the remaining
operations are processable, i.e. the resumed run itself does not
fail). -/
theorem ingest_resume_processes_exactly_remaining (env : IngestEnv)
    (swagger : JValue) (files0 : List (String × JValue)) (ckpt log : String)
    (sf spaths L : List (String × JValue))
    (hs : swagger = JValue.obj sf)
    (hsp : dictGet sf "paths" = some (.obj spaths))
    (hL : dictGet files0 ckpt = some (.obj L))
    (hready : readyPaths env L spaths = true)
    (hnodup : (allKeys spaths).Nodup) :
    (ingest_swagger env swagger files0 ckpt log true).outcome.isOk = true ∧
    storedKeys (ingest_swagger env swagger files0 ckpt log true).trace =
      (allKeys spaths).filter (fun k => !(dictMem L k)) ∧
    skippedKeys (ingest_swagger env swagger files0 ckpt log true).trace =
      (allKeys spaths).filter (fun k => dictMem L k) ∧
    ∀ k ∈ allKeys spaths,
      dictMem (ingest_swagger env swagger files0 ckpt log true).processed k = true := by
  have hload : loadedLedger files0 ckpt true = L := by
    unfold loadedLedger
    rw [if_pos rfl, hL]
  obtain ⟨h1, h2, h3, h4, _, _, _, _⟩ :=
    ingest_run env swagger files0 ckpt log true sf spaths hs hsp
      (by rw [hload]; exact hready) hnodup
  rw [hload] at h2 h3
  simp only [Bool.true_and] at h2 h3
  exact ⟨h1, h2, h3, h4⟩

/-- Witness for C3, the end-to-end scenario C of §8: five target
operations, a checkpoint ledger recording three of them; the resumed run
skips exactly those three and processes exactly the remaining two. -/
theorem ingest_resume_processes_exactly_remaining_witness :
    dictGet [("ckpt.json", JValue.obj [("get:/a", .obj []), ("post:/a", .obj []),
        ("get:/b", .obj [])])] "ckpt.json" =
      some (.obj [("get:/a", .obj []), ("post:/a", .obj []), ("get:/b", .obj [])]) ∧
    readyPaths envDefault
      [("get:/a", .obj []), ("post:/a", .obj []), ("get:/b", .obj [])]
      [("/a", JValue.obj [("get", sampleOp "op1"), ("post", sampleOp "op2")]),
       ("/b", JValue.obj [("get", sampleOp "op3"), ("put", sampleOp "op4"),
         ("delete", sampleOp "op5")])] = true ∧
    (ingest_swagger envDefault
      (.obj [("paths", .obj [
        ("/a", .obj [("get", sampleOp "op1"), ("post", sampleOp "op2")]),
        ("/b", .obj [("get", sampleOp "op3"), ("put", sampleOp "op4"),
          ("delete", sampleOp "op5")])])])
      [("ckpt.json", JValue.obj [("get:/a", .obj []), ("post:/a", .obj []),
        ("get:/b", .obj [])])]
      "ckpt.json" "log.json" true).outcome.isOk = true ∧
    storedKeys (ingest_swagger envDefault
      (.obj [("paths", .obj [
        ("/a", .obj [("get", sampleOp "op1"), ("post", sampleOp "op2")]),
        ("/b", .obj [("get", sampleOp "op3"), ("put", sampleOp "op4"),
          ("delete", sampleOp "op5")])])])
      [("ckpt.json", JValue.obj [("get:/a", .obj []), ("post:/a", .obj []),
        ("get:/b", .obj [])])]
      "ckpt.json" "log.json" true).trace = ["put:/b", "delete:/b"] ∧
    skippedKeys (ingest_swagger envDefault
      (.obj [("paths", .obj [
        ("/a", .obj [("get", sampleOp "op1"), ("post", sampleOp "op2")]),
        ("/b", .obj [("get", sampleOp "op3"), ("put", sampleOp "op4"),
          ("delete", sampleOp "op5")])])])
      [("ckpt.json", JValue.obj [("get:/a", .obj []), ("post:/a", .obj []),
        ("get:/b", .obj [])])]
      "ckpt.json" "log.json" true).trace = ["get:/a", "post:/a", "get:/b"] := by
  have h := ingest_resume_processes_exactly_remaining envDefault
    (.obj [("paths", .obj [
      ("/a", .obj [("get", sampleOp "op1"), ("post", sampleOp "op2")]),
      ("/b", .obj [("get", sampleOp "op3"), ("put", sampleOp "op4"),
        ("delete", sampleOp "op5")])])])
    [("ckpt.json", JValue.obj [("get:/a", .obj []), ("post:/a", .obj []),
      ("get:/b", .obj [])])]
    "ckpt.json" "log.json"
    [("paths", JValue.obj [
      ("/a", .obj [("get", sampleOp "op1"), ("post", sampleOp "op2")]),
      ("/b", .obj [("get", sampleOp "op3"), ("put", sampleOp "op4"),
        ("delete", sampleOp "op5")])])]
    [("/a", JValue.obj [("get", sampleOp "op1"), ("post", sampleOp "op2")]),
     ("/b", JValue.obj [("get", sampleOp "op3"), ("put", sampleOp "op4"),
       ("delete", sampleOp "op5")])]
    [("get:/a", .obj []), ("post:/a", .obj []), ("get:/b", .obj [])]
    rfl (by decide) (by decide) (by decide) (by decide)
  refine ⟨by decide, by decide, h.1, ?_, ?_⟩
  · rw [h.2.1]
    decide
  · rw [h.2.2.1]
    decide

/-- Claim C4 counterexample: a successful fresh run over two operations
performs exactly one checkpoint flush — the final one after the loop
(lines 188-189) — although both operations exit successfully: the ledger
is not written "unconditionally on the success exit of every single
operation"; the success path only flushes at every 5th cumulative entry
(line 172). -/
theorem ingest_no_flush_on_each_success_cex :
    (ingest_swagger envDefault
      (.obj [("paths", .obj [("/a", .obj [("get", sampleOp "op1"),
        ("post", sampleOp "op2")])])])
      [] "ckpt.json" "log.json" false).outcome.isOk = true ∧
    (storedKeys (ingest_swagger envDefault
      (.obj [("paths", .obj [("/a", .obj [("get", sampleOp "op1"),
        ("post", sampleOp "op2")])])])
      [] "ckpt.json" "log.json" false).trace).length = 2 ∧
    flushCount (ingest_swagger envDefault
      (.obj [("paths", .obj [("/a", .obj [("get", sampleOp "op1"),
        ("post", sampleOp "op2")])])])
      [] "ckpt.json" "log.json" false).trace = 1 := by
  exact ⟨by decide, by decide, by decide⟩

/-- Claim C4 amended: (a) whenever a run ends with an error, the
checkpoint file on disk holds the full current ledger and the ledger
covers every store that happened before the failure — the failure
handler (lines 178-183) flushes before re-raising, so all successes
prior to a failed operation are on disk before the failure propagates;
(b) in a fully successful fresh run over n operations the ledger is
written exactly n / 5 + 1 times: after every record that brings the
cumulative entry count to a multiple of 5, and once after the loop —
not on each operation's success exit. -/
theorem ingest_flush_policy (env : IngestEnv) (swagger : JValue)
    (files0 : List (String × JValue)) (ckpt log : String)
    (sf spaths : List (String × JValue))
    (hs : swagger = JValue.obj sf)
    (hsp : dictGet sf "paths" = some (.obj spaths))
    (hshape : pathsShape spaths = true) :
    (∀ resume e,
      (ingest_swagger env swagger files0 ckpt log resume).outcome = .error e →
      dictGet (ingest_swagger env swagger files0 ckpt log resume).files ckpt =
        some (.obj (ingest_swagger env swagger files0 ckpt log resume).processed) ∧
      ∀ k ∈ storedKeys (ingest_swagger env swagger files0 ckpt log resume).trace,
        dictMem (ingest_swagger env swagger files0 ckpt log resume).processed k
          = true) ∧
    (readyPaths env [] spaths = true → (allKeys spaths).Nodup →
      flushCount (ingest_swagger env swagger files0 ckpt log false).trace =
        (allKeys spaths).length / 5 + 1) := by
  subst hs
  constructor
  · intro resume e herr
    obtain ⟨n, hcount⟩ :=
      countPass_ok resume (loadedLedger files0 ckpt resume) spaths hshape
    cases hpl : pathLoop env ckpt resume spaths
        ⟨files0, loadedLedger files0 ckpt resume, [], []⟩ with
    | ok s1 =>
      exfalso
      have hok : (ingest_swagger env (JValue.obj sf) files0 ckpt log resume).outcome =
          .ok s1.documents := by
        simp only [ingest_swagger, asObj, getItem, hsp, hcount, hpl,
          dictGet_dictSet_self]
      rw [hok] at herr
      exact Except.noConfusion herr
    | error es =>
      obtain ⟨e1, s1⟩ := es
      have hrun : ingest_swagger env (JValue.obj sf) files0 ckpt log resume =
          ⟨s1.files, s1.trace, s1.processed, .error e1⟩ := by
        simp only [ingest_swagger, asObj, getItem, hsp, hcount, hpl]
      have hinv0 : ∀ k ∈ storedKeys (⟨files0, loadedLedger files0 ckpt resume,
          [], []⟩ : IngestState).trace,
          dictMem (⟨files0, loadedLedger files0 ckpt resume, [], []⟩ :
            IngestState).processed k = true := by
        intro k hk
        simp [storedKeys] at hk
      have h2 := (pathLoop_inv env ckpt resume spaths hshape
        ⟨files0, loadedLedger files0 ckpt resume, [], []⟩ hinv0).2 e1 s1 hpl
      rw [hrun]
      exact ⟨h2.2, h2.1⟩
  · intro hready hnodup
    obtain ⟨_, _, _, _, h5, _, _, _⟩ :=
      ingest_run env (JValue.obj sf) files0 ckpt log false sf spaths rfl hsp
        hready hnodup
    rw [h5]
    have hfil : (allKeys spaths).filter
        (fun k => !(false && dictMem (loadedLedger files0 ckpt false) k)) =
        allKeys spaths := by
      simp
    rw [hfil]
    show periodicFlushes (List.length []) (allKeys spaths).length + 1 = _
    rw [periodicFlushes_eq]
    simp

/-- Witness for the amended C4: part (a) at a run whose second operation
lacks `responses` and fails after the first was stored; part (b) at a
fresh five-operation run (5 / 5 + 1 = 2 writes of the ledger). -/
theorem ingest_flush_policy_witness :
    (ingest_swagger envDefault
      (.obj [("paths", .obj [("/a", .obj [("get", sampleOp "op1"), ("post",
        .obj [("description", .str "d"), ("operationId", .str "bad"),
              ("tags", .arr []), ("parameters", .arr [])])])])])
      [] "ckpt.json" "log.json" false).outcome = .error (.keyError "responses") ∧
    dictGet (ingest_swagger envDefault
      (.obj [("paths", .obj [("/a", .obj [("get", sampleOp "op1"), ("post",
        .obj [("description", .str "d"), ("operationId", .str "bad"),
              ("tags", .arr []), ("parameters", .arr [])])])])])
      [] "ckpt.json" "log.json" false).files "ckpt.json" =
      some (.obj (ingest_swagger envDefault
        (.obj [("paths", .obj [("/a", .obj [("get", sampleOp "op1"), ("post",
          .obj [("description", .str "d"), ("operationId", .str "bad"),
                ("tags", .arr []), ("parameters", .arr [])])])])])
        [] "ckpt.json" "log.json" false).processed) ∧
    dictMem (ingest_swagger envDefault
      (.obj [("paths", .obj [("/a", .obj [("get", sampleOp "op1"), ("post",
        .obj [("description", .str "d"), ("operationId", .str "bad"),
              ("tags", .arr []), ("parameters", .arr [])])])])])
      [] "ckpt.json" "log.json" false).processed "get:/a" = true ∧
    flushCount (ingest_swagger envDefault
      (.obj [("paths", .obj [
        ("/a", .obj [("get", sampleOp "op1"), ("post", sampleOp "op2")]),
        ("/b", .obj [("get", sampleOp "op3"), ("put", sampleOp "op4"),
          ("delete", sampleOp "op5")])])])
      [] "ckpt.json" "log.json" false).trace = 2 := by
  have hA := ingest_flush_policy envDefault
    (.obj [("paths", .obj [("/a", .obj [("get", sampleOp "op1"), ("post",
      .obj [("description", .str "d"), ("operationId", .str "bad"),
            ("tags", .arr []), ("parameters", .arr [])])])])])
    [] "ckpt.json" "log.json"
    [("paths", JValue.obj [("/a", .obj [("get", sampleOp "op1"), ("post",
      .obj [("description", .str "d"), ("operationId", .str "bad"),
            ("tags", .arr []), ("parameters", .arr [])])])])]
    [("/a", JValue.obj [("get", sampleOp "op1"), ("post",
      .obj [("description", .str "d"), ("operationId", .str "bad"),
            ("tags", .arr []), ("parameters", .arr [])])])]
    rfl (by decide) (by decide)
  have hB := ingest_flush_policy envDefault
    (.obj [("paths", .obj [
      ("/a", .obj [("get", sampleOp "op1"), ("post", sampleOp "op2")]),
      ("/b", .obj [("get", sampleOp "op3"), ("put", sampleOp "op4"),
        ("delete", sampleOp "op5")])])])
    [] "ckpt.json" "log.json"
    [("paths", JValue.obj [
      ("/a", .obj [("get", sampleOp "op1"), ("post", sampleOp "op2")]),
      ("/b", .obj [("get", sampleOp "op3"), ("put", sampleOp "op4"),
        ("delete", sampleOp "op5")])])]
    [("/a", JValue.obj [("get", sampleOp "op1"), ("post", sampleOp "op2")]),
     ("/b", JValue.obj [("get", sampleOp "op3"), ("put", sampleOp "op4"),
       ("delete", sampleOp "op5")])]
    rfl (by decide) (by decide)
  have herr : (ingest_swagger envDefault
      (.obj [("paths", .obj [("/a", .obj [("get", sampleOp "op1"), ("post",
        .obj [("description", .str "d"), ("operationId", .str "bad"),
              ("tags", .arr []), ("parameters", .arr [])])])])])
      [] "ckpt.json" "log.json" false).outcome = .error (.keyError "responses") := by
    decide
  have hpartA := hA.1 false (.keyError "responses") herr
  refine ⟨herr, hpartA.1, hpartA.2 "get:/a" (by decide), ?_⟩
  rw [hB.2 (by decide) (by decide)]
  decide

theorem dictMem_convertListField (rep : JValue → String)
    (props : List (String × JValue)) (f k : String) :
    dictMem (convertListField rep props f) k = dictMem props k := by
  unfold convertListField
  cases hf : dictGet props f with
  | none => rfl
  | some v =>
    cases v with
    | arr xs =>
      by_cases hk : k = f
      · subst hk
        simp [dictMem, dictGet_dictSet_self, hf]
      · simp [dictMem, dictGet_dictSet_ne _ _ _ _ hk]
    | null => rfl
    | bool b => rfl
    | num n => rfl
    | str s => rfl
    | obj fields => rfl

theorem dictMem_convertListFields (rep : JValue → String)
    (props : List (String × JValue)) (k : String) :
    dictMem (convertListFields rep props) k = dictMem props k := by
  show dictMem (convertListField rep (convertListField rep
    (convertListField rep props "tags") "parameters") "security") k = _
  rw [dictMem_convertListField, dictMem_convertListField, dictMem_convertListField]

/-- Inversion of a successful `processOne`: every required operation
field was present in the operation object. -/
theorem processOne_ok_keys (env : IngestEnv) (m p : String)
    (pf : List (String × JValue)) (doc : Doc)
    (h : processOne env m p (.obj pf) = .ok doc) :
    ∀ k ∈ requiredKeys, dictMem pf k = true := by
  cases hdesc : dictGet pf "description" with
  | none => simp [processOne, asObj, getItem, hdesc] at h
  | some descV =>
  cases descV with
  | null => simp [processOne, asObj, getItem, asStr, hdesc] at h
  | bool b => simp [processOne, asObj, getItem, asStr, hdesc] at h
  | num n => simp [processOne, asObj, getItem, asStr, hdesc] at h
  | arr elems => simp [processOne, asObj, getItem, asStr, hdesc] at h
  | obj fields => simp [processOne, asObj, getItem, asStr, hdesc] at h
  | str d =>
  cases hopid : dictGet (dictSet pf "description" (.str (env.md d)))
      "operationId" with
  | none => simp [processOne, asObj, getItem, asStr, hdesc, hopid] at h
  | some opidV =>
  cases opidV with
  | null => simp [processOne, asObj, getItem, asStr, hdesc, hopid] at h
  | bool b => simp [processOne, asObj, getItem, asStr, hdesc, hopid] at h
  | num n => simp [processOne, asObj, getItem, asStr, hdesc, hopid] at h
  | arr elems => simp [processOne, asObj, getItem, asStr, hdesc, hopid] at h
  | obj fields => simp [processOne, asObj, getItem, asStr, hdesc, hopid] at h
  | str opid =>
  cases htags : dictGet (convertListFields env.pyRepr
      (dictSet pf "description" (.str (env.md d)))) "tags" with
  | none => simp [processOne, asObj, getItem, asStr, hdesc, hopid, htags] at h
  | some tagsV =>
  cases hparams : dictGet (convertListFields env.pyRepr
      (dictSet pf "description" (.str (env.md d)))) "parameters" with
  | none =>
    simp [processOne, asObj, getItem, asStr, hdesc, hopid, htags, hparams] at h
  | some paramsV =>
  cases hresps : dictGet (convertListFields env.pyRepr
      (dictSet pf "description" (.str (env.md d)))) "responses" with
  | none =>
    simp [processOne, asObj, getItem, asStr, hdesc, hopid, htags, hparams,
      hresps] at h
  | some respsV =>
  intro k hk
  have hop' : dictGet pf "operationId" = some (JValue.str opid) := by
    rw [← hopid, dictGet_dictSet_ne _ _ _ _ (by decide)]
  have htags' : dictMem pf "tags" = true := by
    have h1 : dictMem (convertListFields env.pyRepr
        (dictSet pf "description" (.str (env.md d)))) "tags" = true := by
      simp [dictMem, htags]
    rw [dictMem_convertListFields] at h1
    rw [dictMem, dictGet_dictSet_ne _ _ _ _ (by decide)] at h1
    exact h1
  have hparams' : dictMem pf "parameters" = true := by
    have h1 : dictMem (convertListFields env.pyRepr
        (dictSet pf "description" (.str (env.md d)))) "parameters" = true := by
      simp [dictMem, hparams]
    rw [dictMem_convertListFields] at h1
    rw [dictMem, dictGet_dictSet_ne _ _ _ _ (by decide)] at h1
    exact h1
  have hresps' : dictMem pf "responses" = true := by
    have h1 : dictMem (convertListFields env.pyRepr
        (dictSet pf "description" (.str (env.md d)))) "responses" = true := by
      simp [dictMem, hresps]
    rw [dictMem_convertListFields] at h1
    rw [dictMem, dictGet_dictSet_ne _ _ _ _ (by decide)] at h1
    exact h1
  simp only [requiredKeys, List.mem_cons, List.not_mem_nil, or_false] at hk
  rcases hk with rfl | rfl | rfl | rfl | rfl
  · simp [dictMem, hdesc]
  · simp [dictMem, hop']
  · exact htags'
  · exact hparams'
  · exact hresps'

/-- Claim C10: the driver requires every targeted operation object to
contain `description`, `operationId`, `tags`, `parameters` and
`responses` — an operation missing any of these cannot be processed
(part 1); the failing access aborts the whole run after flushing the
ledger, storing nothing, rather than skipping the operation (part 2 for
a single-operation document); the differ, in contrast, silently excludes
an operation lacking an `operationId` (part 3: both of its append
helpers leave the output untouched). -/
theorem ingest_requires_operation_fields (env : IngestEnv) (m p : String)
    (pf : List (String × JValue)) (k : String)
    (files : List (String × JValue)) (ckpt log : String)
    (pf2 : List (String × JValue)) (acc : List JValue)
    (hmiss : dictGet pf k = none) (hkin : k ∈ requiredKeys) :
    (processOne env m p (.obj pf)).isOk = false ∧
    (∀ e0, processOne env m p (.obj pf) = .error e0 →
      (ingest_swagger env (.obj [("paths", .obj [(p, .obj [(m, .obj pf)])])])
        files ckpt log false).outcome = .error e0 ∧
      (ingest_swagger env (.obj [("paths", .obj [(p, .obj [(m, .obj pf)])])])
        files ckpt log false).files = dictSet files ckpt (.obj []) ∧
      storedKeys (ingest_swagger env (.obj [("paths",
        .obj [(p, .obj [(m, .obj pf)])])]) files ckpt log false).trace = []) ∧
    (dictGet pf2 "operationId" = none →
      appendId acc (dictGet pf2 "operationId") = acc ∧
      appendIdNew acc (dictGet pf2 "operationId") = acc) := by
  refine ⟨?_, ?_, ?_⟩
  · cases hres : processOne env m p (.obj pf) with
    | ok doc =>
      exfalso
      have hall := processOne_ok_keys env m p pf doc hres k hkin
      simp [dictMem, hmiss] at hall
    | error e =>
      rfl
  · intro e0 hpe
    have hstep : stepOp env ckpt false p
        ⟨files, [], [], []⟩ m (JValue.obj pf) =
        .error (e0, ⟨dictSet files ckpt (.obj []), [], [],
          [.failed (m ++ ":" ++ p), .flushed ckpt []]⟩) := by
      simp [stepOp, hpe]
    have hml : methodLoop env ckpt false p [(m, JValue.obj pf)]
        ⟨files, [], [], []⟩ =
        .error (e0, ⟨dictSet files ckpt (.obj []), [], [],
          [.failed (m ++ ":" ++ p), .flushed ckpt []]⟩) := by
      simp [methodLoop, hstep]
    have hpl : pathLoop env ckpt false [(p, JValue.obj [(m, JValue.obj pf)])]
        ⟨files, [], [], []⟩ =
        .error (e0, ⟨dictSet files ckpt (.obj []), [], [],
          [.failed (m ++ ":" ++ p), .flushed ckpt []]⟩) := by
      simp [pathLoop, asObj, hml]
    have hcount : countPass false [] [(p, JValue.obj [(m, JValue.obj pf)])] =
        .ok 1 := by
      simp [countPass, asObj, dictMem, dictGet]
    have hload : loadedLedger files ckpt false = [] := rfl
    have hgi : getItem [("paths", JValue.obj [(p, JValue.obj [(m, JValue.obj pf)])])]
        "paths" = .ok (JValue.obj [(p, JValue.obj [(m, JValue.obj pf)])]) := rfl
    have hrun : ingest_swagger env
        (.obj [("paths", .obj [(p, .obj [(m, .obj pf)])])])
        files ckpt log false =
        ⟨dictSet files ckpt (.obj []),
         [.failed (m ++ ":" ++ p), .flushed ckpt []], [], .error e0⟩ := by
      simp only [ingest_swagger, asObj, hgi, hload, hcount, hpl]
    rw [hrun]
    exact ⟨rfl, rfl, by simp [storedKeys]⟩
  · intro hno
    rw [hno]
    exact ⟨rfl, rfl⟩

/-- Witness for C10: an operation lacking `responses` makes `processOne`
fail with `KeyError "responses"`; a single-operation run over it aborts
with the empty ledger flushed and nothing stored; and the differ's
append helpers ignore an operation without an `operationId`. -/
theorem ingest_requires_operation_fields_witness :
    dictGet [("description", JValue.str "d"), ("operationId", .str "x"),
      ("tags", .arr []), ("parameters", .arr [])] "responses" = none ∧
    (processOne envDefault "get" "/t"
      (.obj [("description", .str "d"), ("operationId", .str "x"),
        ("tags", .arr []), ("parameters", .arr [])])).isOk = false ∧
    (ingest_swagger envDefault
      (.obj [("paths", .obj [("/t", .obj [("get",
        .obj [("description", .str "d"), ("operationId", .str "x"),
          ("tags", .arr []), ("parameters", .arr [])])])])])
      [] "ckpt.json" "log.json" false).outcome = .error (.keyError "responses") ∧
    (ingest_swagger envDefault
      (.obj [("paths", .obj [("/t", .obj [("get",
        .obj [("description", .str "d"), ("operationId", .str "x"),
          ("tags", .arr []), ("parameters", .arr [])])])])])
      [] "ckpt.json" "log.json" false).files =
      dictSet [] "ckpt.json" (.obj []) ∧
    storedKeys (ingest_swagger envDefault
      (.obj [("paths", .obj [("/t", .obj [("get",
        .obj [("description", .str "d"), ("operationId", .str "x"),
          ("tags", .arr []), ("parameters", .arr [])])])])])
      [] "ckpt.json" "log.json" false).trace = [] ∧
    appendIdNew [JValue.str "a"]
      (dictGet [("description", JValue.str "no id")] "operationId") =
      [JValue.str "a"] := by
  have h := ingest_requires_operation_fields envDefault "get" "/t"
    [("description", JValue.str "d"), ("operationId", .str "x"),
      ("tags", .arr []), ("parameters", .arr [])]
    "responses" [] "ckpt.json" "log.json"
    [("description", JValue.str "no id")] [JValue.str "a"]
    (by decide) (by decide)
  have h2 := h.2.1 (.keyError "responses") (by decide)
  exact ⟨by decide, h.1, h2.1, h2.2.1, h2.2.2, (h.2.2 (by decide)).2⟩
